import Mathlib

/-!
# Verification of the C1 Case Study ETL pipeline

A shallow embedding of `src/pipeline.py` (a pandas ETL script turning raw
point-of-sale rows into a star schema) and of
`src/nutriscore.py` (an external-service annotator), together with proofs
settling the frozen claims about the repository.

Modelling conventions:
* a pandas `DataFrame` is a `List` of structure values, one per row, in frame
  order;
* money (`gross_revenue`, `price`, …) is modelled as `ℚ`; the pipeline's final
  `astype('float32')` casts are not modelled (claims are about the algebraic
  values, not float rounding);
* `NaN` / missing values are modelled as `Option`;
* `DataFrame.groupby(keys)` sorts the distinct keys ascending and, inside a
  group, preserves the original row order; this is modelled by `groupRows`;
* `Series.mode()` returns the most frequent values sorted ascending, so
  `x.mode()[0]` is the least value among those attaining the maximal
  multiplicity; this is modelled by `pandasMode` / `modeOrFirst`;
* a pandas left merge emits, for each left row in order, one output row per
  matching right row, or a single row with nulls when nothing matches;
* `pd.to_datetime` parsing is not modelled: no claim constrains timestamps, so
  the timestamp column carries the concatenated `date + " " + sale_time_exact`
  string the script feeds to the parser.
-/

attribute [local semireducible] Rat.mul Rat.inv Rat.add Rat.sub
  Rat.ofScientific

/-- Whether `c` is Python whitespace, as stripped by `str.strip()` /
pandas `.str.strip()`. -/
def isPySpace (c : Char) : Bool :=
  c == ' ' || c == '\t' || c == '\n' || c == '\r' || c == '\x0b' || c == '\x0c'

/-- Modelled from Python `str.strip()` / pandas `.str.strip()`: drop
whitespace from both ends. -/
def pyStrip (s : String) : String :=
  String.mk (((s.data.dropWhile isPySpace).reverse.dropWhile
    isPySpace).reverse)

/-- Modelled from Python `str.lower()` restricted to ASCII letters (the only
case-carrying characters this data exercises). -/
def asciiLower (c : Char) : Char :=
  if 'A' ≤ c ∧ c ≤ 'Z' then Char.ofNat (c.toNat + 32) else c

/-- Modelled from Python `str.upper()` restricted to ASCII letters. -/
def asciiUpper (c : Char) : Char :=
  if 'a' ≤ c ∧ c ≤ 'z' then Char.ofNat (c.toNat - 32) else c

/-- `str.lower()` on a string, ASCII-restricted. -/
def pyLower (s : String) : String := String.mk (s.data.map asciiLower)

/-- `str.upper()` on a string, ASCII-restricted. -/
def pyUpper (s : String) : String := String.mk (s.data.map asciiUpper)

namespace Pipeline

/-- Splits a character list at the first occurrence of the (nonempty)
separator `sep`, returning the parts before and after it; `none` when the
separator does not occur.  This models Python/pandas
`s.split(sep, n=1)` restricted to the first two pieces. -/
def splitOnFirst (sep : List Char) : List Char → Option (List Char × List Char)
  | [] => none
  | c :: cs =>
    if sep.isPrefixOf (c :: cs) then some ([], (c :: cs).drop sep.length)
    else
      match splitOnFirst sep cs with
      | some (l, r) => some (c :: l, r)
      | none => none

/-- Executable check that `sep` occurs somewhere in `s` (as a contiguous run). -/
def containsSub (sep : List Char) : List Char → Bool
  | [] => sep.isPrefixOf []
  | c :: cs => sep.isPrefixOf (c :: cs) || containsSub sep cs

/-- `raw_data['item_name'].str.split(' - ', n=1)`: the `str[0]` / `str[-1]`
pair — the part before the first `" - "` and the part after it; both equal the
whole string when the separator is absent (pipeline.py lines 36–37). -/
def splitGroupItem (s : String) : String × String :=
  match splitOnFirst " - ".data s.data with
  | some (l, r) => (String.mk l, String.mk r)
  | none => (s, s)

/-- `raw_data['category'].str.split('>', n=1)` followed by `.str.strip()` on
both pieces: trimmed part before the first `'>'` and trimmed part after it;
both equal the trimmed whole string when `'>'` is absent
(pipeline.py lines 82–83). -/
def splitCategory (s : String) : String × String :=
  match splitOnFirst ['>'] s.data with
  | some (l, r) => (pyStrip (String.mk l), pyStrip (String.mk r))
  | none => (pyStrip s, pyStrip s)

/-- Modelled from Python `unicodedata.normalize('NFKD', c)`: the canonical
decomposition of a character, restricted to the accented Latin letters
exercised in this development; every other character is atomic.  The combining
marks produced here are non-ASCII, so the subsequent ASCII filter drops them. -/
def nfkdChar (c : Char) : List Char :=
  if c = 'é' then ['e', '́']
  else if c = 'è' then ['e', '̀']
  else if c = 'ê' then ['e', '̂']
  else if c = 'á' then ['a', '́']
  else if c = 'É' then ['E', '́']
  else [c]

/-- `unicodedata.normalize('NFKD', x).encode('ascii', 'ignore').decode('utf-8')`
(pipeline.py line 48): NFKD-decompose, then keep only ASCII characters. -/
def nfkdAscii (s : String) : String :=
  String.mk (((s.data.map nfkdChar).flatten).filter (fun c => c.toNat < 128))

/-- Number of occurrences of `x` in `xs` (pandas value count). -/
def occCount {α : Type} [DecidableEq α] (x : α) (xs : List α) : Nat :=
  (xs.filter (fun y => decide (y = x))).length

/-- The maximal multiplicity attained by any element of `xs`. -/
def maxCount {α : Type} [DecidableEq α] (xs : List α) : Nat :=
  (xs.map (fun x => occCount x xs)).foldr max 0

/-- The distinct values of `key r` for `r ∈ rows` (each key once). -/
def distinctKeys {κ α : Type} [DecidableEq κ] (key : α → κ) : List α → List κ
  | [] => []
  | r :: rs =>
    let ks := distinctKeys key rs
    if key r ∈ ks then ks else key r :: ks

/-- Insert `k` into `l` before the first element `x` with `le k x`. -/
def insertSorted {κ : Type} (le : κ → κ → Bool) (k : κ) : List κ → List κ
  | [] => [k]
  | x :: xs => if le k x then k :: x :: xs else x :: insertSorted le k xs

/-- Insertion sort by the boolean relation `le`; models the ascending key
sort performed by `DataFrame.groupby` and by `Series.mode()`. -/
def sortBy {κ : Type} (le : κ → κ → Bool) (ks : List κ) : List κ :=
  ks.foldr (insertSorted le) []

/-- `Series.mode()[0]` on a series without nulls: the least value (by `le`)
among those attaining the maximal multiplicity; `none` exactly when the series
is empty. -/
def pandasMode {α : Type} [DecidableEq α] (le : α → α → Bool) (xs : List α) :
    Option α :=
  (sortBy le ((distinctKeys id xs).filter
    (fun x => decide (occCount x xs = maxCount xs)))).head?

/-- `x.mode()[0] if not x.mode().empty else x.iloc[0]` — the aggregation lambda
used for `category`, `day_part` (line 56–57) and for the unit price
(line 123).  Without nulls the fallback is reached only for the empty series. -/
def modeOrFirst {α : Type} [DecidableEq α] (le : α → α → Bool) (xs : List α) :
    Option α :=
  match pandasMode le xs with
  | some m => some m
  | none => xs.head?

/-- The `'max'` aggregation on a `ℚ`-valued series (`none` on the empty one). -/
def aggMax : List ℚ → Option ℚ
  | [] => none
  | x :: xs => some (xs.foldl max x)

/-- Pair each element with a running integer counter starting at `n`;
models `range(1, len(df) + 1)` / `df.index + 1` surrogate-key assignment. -/
def numberFrom {α : Type} : Int → List α → List (Int × α)
  | _, [] => []
  | n, a :: as => (n, a) :: numberFrom (n + 1) as

/-- `DataFrame.groupby(key)` (with the default `sort=True`): the distinct keys
in ascending `le` order, each paired with the rows carrying it in original
order. -/
def groupRows {κ α : Type} [DecidableEq κ] (le : κ → κ → Bool) (key : α → κ)
    (rows : List α) : List (κ × List α) :=
  (sortBy le (distinctKeys key rows)).map
    (fun k => (k, rows.filter (fun r => decide (key r = k))))

/-- One raw POS row as loaded from the spreadsheet (after the column-name
cleanup of lines 21–31, which only renames columns and is not otherwise
modelled).  `is_beverage_on_check` is still raw `"yes"`/`"no"` text here. -/
structure RawRow where
  check_id : Int
  item_name : String
  category : String
  cost_center : String
  gross_revenue : ℚ
  date : String
  sale_time_exact : String
  day_part : String
  is_beverage_on_check : String
deriving DecidableEq, Repr

/-- A raw row after the `item_name` split of lines 36–37: `group` is the part
before the first `" - "` and `item_name` the part after it. -/
structure Row1 where
  check_id : Int
  group : String
  item_name : String
  category : String
  cost_center : String
  gross_revenue : ℚ
  date : String
  sale_time_exact : String
  day_part : String
  is_beverage_on_check : String
deriving DecidableEq, Repr

/-- Lines 36–37: split `item_name` into `group` and the cleaned `item_name`. -/
def splitNames (r : RawRow) : Row1 :=
  { check_id := r.check_id
    group := (splitGroupItem r.item_name).1
    item_name := (splitGroupItem r.item_name).2
    category := r.category
    cost_center := r.cost_center
    gross_revenue := r.gross_revenue
    date := r.date
    sale_time_exact := r.sale_time_exact
    day_part := r.day_part
    is_beverage_on_check := r.is_beverage_on_check }

/-- The dedup identity key of line 51 (`group_keys`), including the
accent-folded `category_norm` of line 48. -/
structure DedupKey where
  check_id : Int
  item_name : String
  date : String
  sale_time_exact : String
  is_beverage_on_check : String
  cost_center : String
  category_norm : String
deriving DecidableEq, Repr

/-- The dedup identity key of a (name-split) raw row. -/
def dedupKey (r : Row1) : DedupKey :=
  { check_id := r.check_id
    item_name := r.item_name
    date := r.date
    sale_time_exact := r.sale_time_exact
    is_beverage_on_check := r.is_beverage_on_check
    cost_center := r.cost_center
    category_norm := nfkdAscii r.category }

/-- Boolean codepoint-lexicographic `<` on character lists (the order in
which Python compares strings and pandas sorts them). -/
def listLtB : List Char → List Char → Bool
  | [], [] => false
  | [], _ :: _ => true
  | _ :: _, [] => false
  | a :: as, b :: bs =>
    if a < b then true else if b < a then false else listLtB as bs

/-- Boolean `≤` on strings (codepoint-lexicographic, as Python compares). -/
def strLE (a b : String) : Bool := ! listLtB b.data a.data

/-- Boolean `≤` on rationals. -/
def qLE (a b : ℚ) : Bool := decide (a ≤ b)

/-- Ascending lexicographic order on dedup keys, component by component, as
`groupby` sorts the key tuples. -/
def dedupKeyLE (a b : DedupKey) : Bool :=
  if a.check_id ≠ b.check_id then decide (a.check_id ≤ b.check_id)
  else if a.item_name ≠ b.item_name then strLE a.item_name b.item_name
  else if a.date ≠ b.date then strLE a.date b.date
  else if a.sale_time_exact ≠ b.sale_time_exact then
    strLE a.sale_time_exact b.sale_time_exact
  else if a.is_beverage_on_check ≠ b.is_beverage_on_check then
    strLE a.is_beverage_on_check b.is_beverage_on_check
  else if a.cost_center ≠ b.cost_center then strLE a.cost_center b.cost_center
  else strLE a.category_norm b.category_norm

/-- One deduplicated row: the identity-key columns plus the aggregated
`gross_revenue`, `category`, `day_part` and `group` (the temporary
`category_norm` column is dropped again, line 62). -/
structure DedupRow where
  check_id : Int
  item_name : String
  date : String
  sale_time_exact : String
  is_beverage_on_check : String
  cost_center : String
  gross_revenue : ℚ
  category : String
  day_part : String
  group : String
deriving DecidableEq, Repr

/-- The per-group aggregation of the dedup `groupby.agg` (lines 54–59):
`gross_revenue` with `'max'`, `category` and `day_part` with
`x.mode()[0] if not x.mode().empty else x.iloc[0]`, and `group` with
`'first'`.  The `none` case is unreachable: every group is nonempty. -/
def dedupeAgg (p : DedupKey × List Row1) : Option DedupRow :=
  match aggMax (p.2.map (fun r => r.gross_revenue)),
        modeOrFirst strLE (p.2.map (fun r => r.category)),
        modeOrFirst strLE (p.2.map (fun r => r.day_part)),
        p.2.head? with
  | some rev, some cat, some dp, some h =>
      some { check_id := p.1.check_id
             item_name := p.1.item_name
             date := p.1.date
             sale_time_exact := p.1.sale_time_exact
             is_beverage_on_check := p.1.is_beverage_on_check
             cost_center := p.1.cost_center
             gross_revenue := rev
             category := cat
             day_part := dp
             group := h.group }
  | _, _, _, _ => none

/-- Lines 54–62: group by the dedup identity key and aggregate each group
with `dedupeAgg` (the temporary `category_norm` key column is dropped
again on line 62). -/
def dedupe (rows : List Row1) : List DedupRow :=
  (groupRows dedupKeyLE dedupKey rows).filterMap dedupeAgg

/-- A deduplicated row after the post-dedup cleaning of lines 82–92:
`category` split into trimmed `category_main` / `sub_category`, the timestamp
input string concatenated, and `is_beverage_on_check` coerced to a boolean by
lower-cased trimmed comparison with `"yes"`. -/
structure CleanRow where
  check_id : Int
  item_name : String
  group : String
  category : String
  category_main : String
  sub_category : String
  cost_center : String
  gross_revenue : ℚ
  timestamp : String
  day_part : String
  is_beverage : Bool
deriving DecidableEq, Repr

/-- Lines 82–92 applied to one deduplicated row. -/
def cleanRow (d : DedupRow) : CleanRow :=
  { check_id := d.check_id
    item_name := d.item_name
    group := d.group
    category := d.category
    category_main := (splitCategory d.category).1
    sub_category := (splitCategory d.category).2
    cost_center := d.cost_center
    gross_revenue := d.gross_revenue
    timestamp := d.date ++ " " ++ d.sale_time_exact
    day_part := d.day_part
    is_beverage := decide (pyStrip (pyLower d.is_beverage_on_check) = "yes") }

/-- The cleaned, deduplicated table that feeds every dimension and fact
builder (the reassigned `raw_data` of line 79 after lines 82–92). -/
def runClean (raws : List RawRow) : List CleanRow :=
  (dedupe (raws.map splitNames)).map cleanRow

/-- The grouping key of `mode_price` (line 121) and the item-merge key of the
line-items build (line 162): `(item_name, group, category_main, sub_category,
cost_center)`. -/
structure ItemKey where
  item_name : String
  group : String
  category_main : String
  sub_category : String
  cost_center : String
deriving DecidableEq, Repr

/-- The item key of a cleaned row. -/
def itemKey (r : CleanRow) : ItemKey :=
  { item_name := r.item_name
    group := r.group
    category_main := r.category_main
    sub_category := r.sub_category
    cost_center := r.cost_center }

/-- Ascending lexicographic order on item keys, as `groupby` sorts them. -/
def itemKeyLE (a b : ItemKey) : Bool :=
  if a.item_name ≠ b.item_name then strLE a.item_name b.item_name
  else if a.group ≠ b.group then strLE a.group b.group
  else if a.category_main ≠ b.category_main then
    strLE a.category_main b.category_main
  else if a.sub_category ≠ b.sub_category then
    strLE a.sub_category b.sub_category
  else strLE a.cost_center b.cost_center

/-- One row of the `items` frame of lines 128–132: surrogate `item_id`,
the grouping-key columns and the inferred unit `price`. -/
structure Item where
  item_id : Int
  item_name : String
  group : String
  category_main : String
  sub_category : String
  price : ℚ
  cost_center : String
deriving DecidableEq, Repr

/-- The item key of an `items` row. -/
def itemKeyI (it : Item) : ItemKey :=
  { item_name := it.item_name
    group := it.group
    category_main := it.category_main
    sub_category := it.sub_category
    cost_center := it.cost_center }

/-- The per-group unit-price aggregation of `mode_price` (line 123):
`x.mode()[0] if not x.mode().empty else x.iloc[0]` on the group's revenues,
paired with the surrogate `item_id` carried in the first component.  The
`none` case is unreachable: every group is nonempty. -/
def itemAgg (p : Int × (ItemKey × List CleanRow)) : Option Item :=
  match modeOrFirst qLE (p.2.2.map (fun r => r.gross_revenue)) with
  | some price =>
      some { item_id := p.1
             item_name := p.2.1.item_name
             group := p.2.1.group
             category_main := p.2.1.category_main
             sub_category := p.2.1.sub_category
             price := price
             cost_center := p.2.1.cost_center }
  | none => none

/-- Lines 119–132 (`mode_price` and `items`): keep only rows with
`gross_revenue > 0`, group by the item key, take the `itemAgg` unit price of
each group and assign `item_id = 1, 2, …` in group order. -/
def buildItems (rows : List CleanRow) : List Item :=
  (numberFrom 1 (groupRows itemKeyLE itemKey
    (rows.filter (fun r => decide (0 < r.gross_revenue))))).filterMap itemAgg

/-- One row of the external `dim_categories.xlsx` reference table as read on
line 109 (the columns the pipeline uses). -/
structure CatRef where
  cat_level1 : String
  cat_level2 : String
  cat_cost_center : String
  margin_group : String
  category_id : Int
deriving DecidableEq, Repr

/-- Line 111: `margin_group.map({'Beverage': 0.6, 'Food': 0.4,
'Snacks': 0.3})`; pandas `.map` yields `NaN` for any other value. -/
def marginMap (mg : String) : Option ℚ :=
  if mg = "Beverage" then some (6 / 10)
  else if mg = "Food" then some (4 / 10)
  else if mg = "Snacks" then some (3 / 10)
  else none

/-- One row of the final `dim_categories` table: the reference row plus the
derived `margin` (`none` models the unfilled `NaN` — this table is never
`fillna`-ed, only `astype`-cast on lines 228–235). -/
structure DimCategory where
  cat_level1 : String
  cat_level2 : String
  cat_cost_center : String
  margin_group : String
  category_id : Int
  margin : Option ℚ
deriving DecidableEq, Repr

/-- Lines 109–111: the final `dim_categories` table. -/
def buildDimCategories (refs : List CatRef) : List DimCategory :=
  refs.map (fun c =>
    { cat_level1 := c.cat_level1
      cat_level2 := c.cat_level2
      cat_cost_center := c.cat_cost_center
      margin_group := c.margin_group
      category_id := c.category_id
      margin := marginMap c.margin_group })

/-- One row of the final `fact_transactions` table (after the select/rename
of lines 238–247). -/
structure FactTransaction where
  transaction_id : Int
  check_id : Int
  timestamp : String
  total_amount : ℚ
  num_items : Int
  transaction_cost_center : String
  top_group : Option String
  has_beverage : Bool
  day_part : String
deriving DecidableEq, Repr

/-- The per-`check_id` aggregation of lines 137–145 (`first` timestamp /
cost_center / day_part / has_beverage, `sum` revenue, `count` items,
mode-or-`None` top group), with the surrogate `transaction_id` carried in
the first component.  The `none` case is unreachable: groups are nonempty. -/
def txAgg (p : Int × (Int × List CleanRow)) : Option FactTransaction :=
  match p.2.2.head? with
  | some h =>
      some { transaction_id := p.1
             check_id := p.2.1
             timestamp := h.timestamp
             total_amount := (p.2.2.map (fun r => r.gross_revenue)).sum
             num_items := p.2.2.length
             transaction_cost_center := h.cost_center
             top_group := pandasMode strLE (p.2.2.map (fun r => r.group))
             has_beverage := h.is_beverage
             day_part := h.day_part }
  | none => none

/-- Lines 136–148: group the cleaned rows by `check_id`, aggregate each group
with `txAgg` and number the groups `1, 2, …`; the final select/rename of
lines 238–247 only renames columns. -/
def buildTransactions (rows : List CleanRow) : List FactTransaction :=
  (numberFrom 1 (groupRows (fun a b => decide (a ≤ b))
    (fun r : CleanRow => r.check_id) rows)).filterMap txAgg

/-- One row of the `line_items_final` frame of lines 174–177: surrogate
`line_item_id`, the two foreign keys resolved by the left merges of lines
160–171 (`none` models a `NaN` key that failed to resolve) and the retained
value columns. -/
structure LineItem where
  line_item_id : Int
  transaction_id : Option Int
  item_id : Option Int
  gross_revenue : ℚ
  timestamp : String
  day_part : String
  is_beverage : Bool
deriving DecidableEq, Repr

/-- One line item built from the numbered cleaned row `p`, with `item_id`
looked up by the full item key and `transaction_id` by `check_id` (both merge
keys are unique on the right side, so each left merge matches at most one
row, modelled by `find?`). -/
def lineItemOf (items : List Item) (txs : List FactTransaction)
    (p : Int × CleanRow) : LineItem :=
  { line_item_id := p.1
    transaction_id :=
      (txs.find? (fun t => decide (t.check_id = p.2.check_id))).map
        (fun t => t.transaction_id)
    item_id :=
      (items.find? (fun it => decide (itemKeyI it = itemKey p.2))).map
        (fun it => it.item_id)
    gross_revenue := p.2.gross_revenue
    timestamp := p.2.timestamp
    day_part := p.2.day_part
    is_beverage := p.2.is_beverage }

/-- Lines 155–177: one line item per cleaned row, in order, with
`line_item_id = 1, 2, …` in row order. -/
def buildLineItems (rows : List CleanRow) (items : List Item)
    (txs : List FactTransaction) : List LineItem :=
  (numberFrom 1 rows).map (lineItemOf items txs)

/-- One row of the final `dim_items` table of lines 184–216 (the passthrough
`cat_level1`/`cat_level2`/`cat_cost_center` join columns are omitted: no claim
references them).  `margin` and `category_id` are already `fillna(0)`-filled
(line 202). -/
structure DimItem where
  item_id : Int
  item_name : String
  group : String
  category : String
  sub_category : String
  price : ℚ
  item_cost_center : String
  margin : ℚ
  est_cost : ℚ
  category_id : Int
deriving DecidableEq, Repr

/-- The `dim_items` row obtained when an item matches the reference row `c`
(lines 191–202): `margin` is the derived margin (a `NaN` margin for an
unrecognized `margin_group` makes `est_cost = price * (1 - NaN) = NaN`; both
are then filled with `0` by `fillna(0)`). -/
def dimItemOfMatch (it : Item) (c : DimCategory) : DimItem :=
  { item_id := it.item_id
    item_name := it.item_name
    group := it.group
    category := it.category_main
    sub_category := it.sub_category
    price := it.price
    item_cost_center := it.cost_center
    margin := c.margin.getD 0
    est_cost := match c.margin with
      | some m => it.price * (1 - m)
      | none => 0
    category_id := c.category_id }

/-- The `dim_items` row of an item with no reference match: the merge leaves
`margin`, `category_id` and hence `est_cost` as `NaN`, all filled with `0`
by `fillna(0)` (line 202). -/
def dimItemUnmatched (it : Item) : DimItem :=
  { item_id := it.item_id
    item_name := it.item_name
    group := it.group
    category := it.category_main
    sub_category := it.sub_category
    price := it.price
    item_cost_center := it.cost_center
    margin := 0
    est_cost := 0
    category_id := 0 }

/-- The `dim_items` rows produced by one item in the left merge of lines
191–196: one output row per reference row matching on
`(category, sub_category, item_cost_center) =
(cat_level1, cat_level2, cat_cost_center)`, or a single null-filled row when
nothing matches. -/
def dimRowsOf (cats : List DimCategory) (it : Item) : List DimItem :=
  match cats.filter (fun c =>
      decide (c.cat_level1 = it.category_main ∧
              c.cat_level2 = it.sub_category ∧
              c.cat_cost_center = it.cost_center)) with
  | [] => [dimItemUnmatched it]
  | ms => ms.map (fun c => dimItemOfMatch it c)

/-- Lines 184–216: rename `category_main → category`,
`cost_center → item_cost_center`, left-merge with `dim_categories`,
compute `est_cost = price * (1 - margin)` and fill the remaining nulls
with `0` — the final `dim_items` table. -/
def buildDimItems (items : List Item) (cats : List DimCategory) :
    List DimItem :=
  items.flatMap (dimRowsOf cats)

/-- Round half to even on `ℚ`, yielding the integer a float `.round()`
produces in pandas/numpy (banker's rounding). -/
def roundHalfEven (q : ℚ) : ℤ :=
  let f := ⌊q⌋
  if q - f < 1 / 2 then f
  else if 1 / 2 < q - f then f + 1
  else if f % 2 = 0 then f else f + 1

/-- One row of the final `fact_line_items` table of lines 263–309.  `price` is
`Option ℚ` because the `fillna` dictionary of line 289 has no `price` key, so
an unresolved item's `NaN` price survives into the final table. -/
structure FactLineItem where
  line_item_id : Int
  transaction_id : Int
  item_id : Int
  gross_revenue : ℚ
  margin : ℚ
  price : Option ℚ
  est_cost : ℚ
  est_profit : ℚ
  quantity : ℤ
deriving DecidableEq, Repr

/-- The final `fact_line_items` row of a line item whose `item_id` matched no
`dim_items` row: the merge leaves `margin` and `price` as `NaN`, so
`est_cost`, `est_profit` and `quantity = gross_revenue / price` are `NaN`
too; `quantity` is filled with `0` by `.fillna(0)` on line 279 (which makes
the `quantity: 1` entry of the line-289 `fillna` dictionary dead code), and
the remaining numeric `NaN`s are filled with `0` by line 289 — except
`price`, which has no entry in that dictionary and stays null. -/
def fliUnmatched (li : LineItem) : FactLineItem :=
  { line_item_id := li.line_item_id
    transaction_id := li.transaction_id.getD 0
    item_id := li.item_id.getD 0
    gross_revenue := li.gross_revenue
    margin := 0
    price := none
    est_cost := 0
    est_profit := 0
    quantity := 0 }

/-- The final `fact_line_items` row of a line item joined with the
`dim_items` row `d` (lines 268–309): `est_cost = gross_revenue * (1 -
margin)`, `est_profit = gross_revenue - est_cost` and
`quantity = round(gross_revenue / price)` with half-to-even float rounding.
A zero `d.price` cannot arise: every `dim_items` price is strictly
positive (`dimItems_price_pos` below). -/
def fliMatched (li : LineItem) (d : DimItem) : FactLineItem :=
  { line_item_id := li.line_item_id
    transaction_id := li.transaction_id.getD 0
    item_id := li.item_id.getD 0
    gross_revenue := li.gross_revenue
    margin := d.margin
    price := some d.price
    est_cost := li.gross_revenue * (1 - d.margin)
    est_profit := li.gross_revenue - li.gross_revenue * (1 - d.margin)
    quantity := roundHalfEven (li.gross_revenue / d.price) }

/-- The final `fact_line_items` rows produced by one line item in the left
merge on `item_id` of lines 268–272: a `NaN` key matches nothing, and each
matching `dim_items` row yields one output row. -/
def fliRowsOf (dis : List DimItem) (li : LineItem) : List FactLineItem :=
  match (match li.item_id with
         | none => ([] : List DimItem)
         | some i => dis.filter (fun d => decide (d.item_id = i))) with
  | [] => [fliUnmatched li]
  | ms => ms.map (fliMatched li)

/-- Lines 263–309: the final `fact_line_items` table. -/
def buildFactLineItems (lis : List LineItem) (dis : List DimItem) :
    List FactLineItem :=
  lis.flatMap (fliRowsOf dis)

/-- The final `dim_items` table of a full pipeline run. -/
def dimItems (raws : List RawRow) (refs : List CatRef) : List DimItem :=
  buildDimItems (buildItems (runClean raws)) (buildDimCategories refs)

/-- The final `fact_transactions` table of a full pipeline run. -/
def factTransactions (raws : List RawRow) : List FactTransaction :=
  buildTransactions (runClean raws)

/-- The final `fact_line_items` table of a full pipeline run. -/
def factLineItems (raws : List RawRow) (refs : List CatRef) :
    List FactLineItem :=
  buildFactLineItems
    (buildLineItems (runClean raws) (buildItems (runClean raws))
      (factTransactions raws))
    (dimItems raws refs)

/-- The final `transaction_id` assigned to the line item of the cleaned row
`r` (the `check_id` left merge of lines 167–171 followed by the
`fillna(0)` of line 289). -/
def txidOf (txs : List FactTransaction) (r : CleanRow) : Int :=
  ((txs.find? (fun t => decide (t.check_id = r.check_id))).map
    (fun t => t.transaction_id)).getD 0

/-- The join key of a `dim_categories` row in the `dim_items` merge
(line 194). -/
def dimCatJoinKey (c : DimCategory) : String × String × String :=
  (c.cat_level1, c.cat_level2, c.cat_cost_center)

/-- The join key of a raw reference row. -/
def refJoinKey (c : CatRef) : String × String × String :=
  (c.cat_level1, c.cat_level2, c.cat_cost_center)

/-! ### Concrete inputs for scenario parts, witnesses and counterexamples -/

/-- The spec's scenario row: `item_name="Beverages - Iced Tea",
category="Drinks>Cold", gross_revenue=3.50, cost_center="Cafe"`. -/
def scenarioRaw : RawRow :=
  { check_id := 1, item_name := "Beverages - Iced Tea",
    category := "Drinks>Cold", cost_center := "Cafe",
    gross_revenue := 7 / 2, date := "2024-01-01",
    sale_time_exact := "12:00:00", day_part := "Lunch",
    is_beverage_on_check := "Yes" }

/-- The scenario row with `gross_revenue = 10.00`, priced `10.00` in a
`Food`-margin category. -/
def icedTeaTenRaw : RawRow :=
  { check_id := 9, item_name := "Beverages - Iced Tea",
    category := "Drinks>Cold", cost_center := "Cafe",
    gross_revenue := 10, date := "2024-01-01",
    sale_time_exact := "12:00:00", day_part := "Lunch",
    is_beverage_on_check := "Yes" }

/-- The reference row matching the scenario item, with `margin_group =
"Food"`. -/
def coldDrinksRef : CatRef :=
  { cat_level1 := "Drinks", cat_level2 := "Cold", cat_cost_center := "Cafe",
    margin_group := "Food", category_id := 7 }

/-- A row whose item has only zero revenue: its item key never enters
`dim_items`, so its line item cannot resolve an `item_id`. -/
def zeroRevRaw : RawRow :=
  { check_id := 5, item_name := "Water", category := "Drinks",
    cost_center := "Cafe", gross_revenue := 0, date := "2024-01-01",
    sale_time_exact := "12:00:00", day_part := "Lunch",
    is_beverage_on_check := "no" }

/-- A normal sale of an item priced 10. -/
def teaRaw : RawRow :=
  { check_id := 1, item_name := "Tea", category := "Drinks",
    cost_center := "Cafe", gross_revenue := 10, date := "2024-01-01",
    sale_time_exact := "12:00:00", day_part := "Lunch",
    is_beverage_on_check := "no" }

/-- A negative-revenue row (refund) for the same item on another check. -/
def teaRefundRaw : RawRow :=
  { check_id := 2, item_name := "Tea", category := "Drinks",
    cost_center := "Cafe", gross_revenue := -15, date := "2024-01-01",
    sale_time_exact := "12:00:00", day_part := "Lunch",
    is_beverage_on_check := "no" }

/-- Two reference rows with distinct `margin_group` but the same
`(cat_level1, cat_level2, cat_cost_center)` join key. -/
def dupFoodRef : CatRef :=
  { cat_level1 := "Drinks", cat_level2 := "Drinks", cat_cost_center := "Cafe",
    margin_group := "Food", category_id := 1 }

/-- See `dupFoodRef`: same join key, different `margin_group`. -/
def dupBevRef : CatRef :=
  { cat_level1 := "Drinks", cat_level2 := "Drinks", cat_cost_center := "Cafe",
    margin_group := "Beverage", category_id := 2 }

/-- First scan of a duplicated sale, recorded under `day_part = "Lunch"`. -/
def soupLunchRaw : RawRow :=
  { check_id := 3, item_name := "Soup", category := "Food",
    cost_center := "Cafe", gross_revenue := 4, date := "2024-01-02",
    sale_time_exact := "13:00:00", day_part := "Lunch",
    is_beverage_on_check := "no" }

/-- Duplicate of `soupLunchRaw` under `day_part = "Breakfast"`. -/
def soupBreakfastRaw : RawRow :=
  { check_id := 3, item_name := "Soup", category := "Food",
    cost_center := "Cafe", gross_revenue := 4, date := "2024-01-02",
    sale_time_exact := "13:00:00", day_part := "Breakfast",
    is_beverage_on_check := "no" }

/-- A name-split row with the accented category `"Entrée"`. -/
def entreeAccentRow : Row1 :=
  { check_id := 4, group := "Salmon", item_name := "Salmon",
    category := "Entrée", cost_center := "Cafe", gross_revenue := 12,
    date := "2024-01-02", sale_time_exact := "14:00:00",
    day_part := "Dinner", is_beverage_on_check := "no" }

/-- The same sale as `entreeAccentRow`, re-exported with the accent-free
category `"Entree"` and a lower scanned revenue. -/
def entreePlainRow : Row1 :=
  { check_id := 4, group := "Salmon", item_name := "Salmon",
    category := "Entree", cost_center := "Cafe", gross_revenue := 9,
    date := "2024-01-02", sale_time_exact := "14:00:00",
    day_part := "Dinner", is_beverage_on_check := "no" }

/-- The `dim_items` entry produced by a run on `[teaRaw]`. -/
def teaItem : Item :=
  { item_id := 1, item_name := "Tea", group := "Tea",
    category_main := "Drinks", sub_category := "Drinks", price := 10,
    cost_center := "Cafe" }

/-- A sale of an item at 7.00 (first in row order). -/
def pieSevenRaw : RawRow :=
  { check_id := 1, item_name := "Pie", category := "Food",
    cost_center := "Cafe", gross_revenue := 7, date := "2024-01-01",
    sale_time_exact := "12:00:00", day_part := "Lunch",
    is_beverage_on_check := "no" }

/-- A sale of the same item at 5.00 on another check (second in row order). -/
def pieFiveRaw : RawRow :=
  { check_id := 2, item_name := "Pie", category := "Food",
    cost_center := "Cafe", gross_revenue := 5, date := "2024-01-01",
    sale_time_exact := "12:00:00", day_part := "Lunch",
    is_beverage_on_check := "no" }

end Pipeline

namespace NutriScore

/-- The observable behaviour of one `model.generate_content` call in
`nutriscore.py`: either a response whose `.text` is the given string, or a
raised exception (any `Exception`, including a failure inside
`response.text` itself — everything in the `try` block is caught). -/
inductive ServiceResponse where
  | ok (text : String)
  | failure (msg : String)
deriving DecidableEq, Repr

/-- The five admissible grades (`['A', 'B', 'C', 'D', 'E']`, line 43). -/
def validScores : List String := ["A", "B", "C", "D", "E"]

/-- `NutriScoreEstimator.estimate_score` (nutriscore.py lines 17–52) as a
function of the external service's behaviour: on a response, strip and
upper-case its text and return it when it is one of the five grades,
otherwise `'C'`; on any raised exception, log, sleep and return `'C'`
(the `time.sleep(1)` delay has no observable value-level effect). -/
def estimate_score (resp : ServiceResponse) : String :=
  match resp with
  | .ok t =>
      let score := pyUpper (pyStrip t)
      if score ∈ validScores then score else "C"
  | .failure _ => "C"

end NutriScore

namespace Pipeline

/-! ### The splitting functions split at the first separator occurrence -/

theorem splitOnFirst_some_spec {sep : List Char} :
    ∀ {s l r : List Char}, splitOnFirst sep s = some (l, r) →
      s = l ++ sep ++ r ∧
        ∀ l' r', s = l' ++ sep ++ r' → l.length ≤ l'.length := by
  intro s
  induction s with
  | nil => intro l r h; cases h
  | cons c cs ih =>
    intro l r h
    rw [splitOnFirst] at h
    by_cases hp : sep.isPrefixOf (c :: cs)
    · rw [if_pos hp] at h
      rw [Option.some.injEq, Prod.mk.injEq] at h
      obtain ⟨t, ht⟩ := List.isPrefixOf_iff_prefix.mp hp
      constructor
      · rw [← h.1, ← h.2, List.nil_append, ← ht, List.drop_left]
      · intro l' r' _
        rw [← h.1]
        simp
    · rw [if_neg hp] at h
      cases hs : splitOnFirst sep cs with
      | none =>
        rw [hs] at h
        exact Option.noConfusion h
      | some p =>
        rcases p with ⟨l₀, r₀⟩
        rw [hs] at h
        have h' : some (c :: l₀, r₀) = some (l, r) := h
        rw [Option.some.injEq, Prod.mk.injEq] at h'
        obtain ⟨hcs, hmin⟩ := ih hs
        constructor
        · rw [← h'.1, ← h'.2, List.cons_append, List.cons_append, ← hcs]
        · intro l' r' hdec
          cases l' with
          | nil =>
            rw [List.nil_append] at hdec
            exact absurd (List.isPrefixOf_iff_prefix.mpr ⟨r', hdec.symm⟩) hp
          | cons c' l'' =>
            rw [List.cons_append, List.cons_append] at hdec
            injection hdec with h1 h2
            have := hmin l'' r' h2
            rw [← h'.1]
            simp only [List.length_cons]
            omega

theorem splitOnFirst_none_spec {sep : List Char} (hsep : sep ≠ []) :
    ∀ {s : List Char}, splitOnFirst sep s = none →
      ∀ l r, s ≠ l ++ sep ++ r := by
  intro s
  induction s with
  | nil =>
    intro _ l r hc
    have hlen0 : (l ++ sep ++ r).length = ([] : List Char).length := by
      rw [← hc]
    rw [List.length_append, List.length_append] at hlen0
    have hlen : 0 < sep.length := List.length_pos.mpr hsep
    simp only [List.length_nil] at hlen0
    omega
  | cons c cs ih =>
    intro h l r hc
    rw [splitOnFirst] at h
    by_cases hp : sep.isPrefixOf (c :: cs)
    · rw [if_pos hp] at h
      exact Option.noConfusion h
    · rw [if_neg hp] at h
      cases hs : splitOnFirst sep cs with
      | some p =>
        rcases p with ⟨a, b⟩
        rw [hs] at h
        exact Option.noConfusion h
      | none =>
        cases l with
        | nil =>
          rw [List.nil_append] at hc
          exact hp (List.isPrefixOf_iff_prefix.mpr ⟨r, hc.symm⟩)
        | cons c' l'' =>
          rw [List.cons_append, List.cons_append] at hc
          injection hc with h1 h2
          exact ih hs l'' r h2

/-! ### The boolean string order agrees with the lexicographic order -/

theorem listLtB_iff : ∀ x y : List Char, listLtB x y = true ↔ x < y := by
  intro x
  induction x with
  | nil =>
    intro y
    cases y with
    | nil =>
      constructor
      · intro h; cases h
      · intro h; nomatch h
    | cons b bs =>
      constructor
      · intro _; exact List.Lex.nil
      · intro _; rfl
  | cons a as ih =>
    intro y
    cases y with
    | nil =>
      constructor
      · intro h; cases h
      · intro h; nomatch h
    | cons b bs =>
      rw [listLtB]
      by_cases h1 : a < b
      · rw [if_pos h1]
        constructor
        · intro _; exact List.Lex.rel h1
        · intro _; rfl
      · rw [if_neg h1]
        by_cases h2 : b < a
        · rw [if_pos h2]
          constructor
          · intro h; cases h
          · intro h
            cases h with
            | cons h3 => exact absurd h2 (lt_irrefl a)
            | rel h' => exact absurd h' h1
        · rw [if_neg h2, ih bs]
          have hab : a = b := le_antisymm (not_lt.mp h2) (not_lt.mp h1)
          subst hab
          constructor
          · intro h3; exact List.Lex.cons h3
          · intro h
            cases h with
            | cons h3 => exact h3
            | rel h' => exact absurd h' h1

theorem strLE_iff (a b : String) : strLE a b = true ↔ a ≤ b := by
  rw [strLE, Bool.not_eq_true']
  constructor
  · intro h
    rw [String.le_iff_toList_le, ← not_lt]
    intro hlt
    have hb := (listLtB_iff b.data a.data).mpr hlt
    rw [h] at hb
    cases hb
  · intro h
    cases hb : listLtB b.data a.data with
    | false => rfl
    | true =>
      exfalso
      have hlt := (listLtB_iff b.data a.data).mp hb
      exact absurd hlt (not_lt.mpr (String.le_iff_toList_le.mp h))

theorem qLE_iff (a b : ℚ) : qLE a b = true ↔ a ≤ b :=
  ⟨of_decide_eq_true, decide_eq_true⟩

/-! ### Basic lemmas about the list combinators -/

theorem insertSorted_perm {κ : Type} (le : κ → κ → Bool) (k : κ)
    (l : List κ) : (insertSorted le k l).Perm (k :: l) := by
  induction l with
  | nil => simp [insertSorted]
  | cons x xs ih =>
    simp only [insertSorted]
    split
    · exact List.Perm.refl _
    · exact (ih.cons x).trans (List.Perm.swap k x xs)

theorem sortBy_perm {κ : Type} (le : κ → κ → Bool) (l : List κ) :
    (sortBy le l).Perm l := by
  induction l with
  | nil => simp [sortBy]
  | cons x xs ih =>
    exact (insertSorted_perm le x (sortBy le xs)).trans (ih.cons x)

theorem mem_sortBy {κ : Type} {le : κ → κ → Bool} {l : List κ} {k : κ} :
    k ∈ sortBy le l ↔ k ∈ l := (sortBy_perm le l).mem_iff

theorem distinctKeys_nodup {κ α : Type} [DecidableEq κ] (key : α → κ)
    (rows : List α) : (distinctKeys key rows).Nodup := by
  induction rows with
  | nil => simp [distinctKeys]
  | cons r rs ih =>
    simp only [distinctKeys]
    split
    · exact ih
    · exact List.Nodup.cons (by assumption) ih

theorem mem_distinctKeys {κ α : Type} [DecidableEq κ] {key : α → κ}
    {rows : List α} {k : κ} :
    k ∈ distinctKeys key rows ↔ ∃ r ∈ rows, key r = k := by
  induction rows with
  | nil => simp [distinctKeys]
  | cons r rs ih =>
    simp only [distinctKeys]
    split
    · rw [ih]
      constructor
      · rintro ⟨r', hr', hk⟩; exact ⟨r', List.mem_cons_of_mem _ hr', hk⟩
      · rintro ⟨r', hr', hk⟩
        rcases List.mem_cons.mp hr' with h | h
        · subst h; subst hk; rename_i hmem; exact ih.mp hmem
        · exact ⟨r', h, hk⟩
    · constructor
      · intro h
        rcases List.mem_cons.mp h with he | hm
        · exact ⟨r, List.mem_cons_self _ _, he.symm⟩
        · rcases ih.mp hm with ⟨r', hr', hk⟩
          exact ⟨r', List.mem_cons_of_mem _ hr', hk⟩
      · rintro ⟨r', hr', hk⟩
        rcases List.mem_cons.mp hr' with he | hm
        · subst he; rw [← hk]; exact List.mem_cons_self _ _
        · exact List.mem_cons_of_mem _ (ih.mpr ⟨r', hm, hk⟩)

/-- Sum of an indicator over a duplicate-free key list. -/
theorem sum_map_ite {κ : Type} [DecidableEq κ] (c : κ) (v : ℚ) :
    ∀ keys : List κ, keys.Nodup → c ∈ keys →
      (keys.map (fun k => if c = k then v else 0)).sum = v := by
  intro keys
  induction keys with
  | nil => intro _ h; cases h
  | cons k ks ih =>
    intro hnd hc
    simp only [List.map_cons, List.sum_cons]
    by_cases h : c = k
    · subst h
      have : ∀ k' ∈ ks, (if c = k' then v else 0) = 0 := by
        intro k' hk'
        have : c ≠ k' := fun he => (List.nodup_cons.mp hnd).1 (he ▸ hk')
        simp [this]
      rw [if_pos rfl, List.sum_eq_zero (by
        intro x hx
        rcases List.mem_map.mp hx with ⟨k', hk', hxe⟩
        rw [← hxe]; exact this k' hk')]
      ring
    · rcases List.mem_cons.mp hc with he | hm
      · exact absurd he h
      · rw [if_neg h, ih (List.nodup_cons.mp hnd).2 hm]; ring

theorem sum_map_add {κ : Type} (l : List κ) (f g : κ → ℚ) :
    (l.map (fun k => f k + g k)).sum = (l.map f).sum + (l.map g).sum := by
  induction l with
  | nil => simp
  | cons x xs ih => simp [ih]; ring

/-- Summing a function groupwise over a partition of `rows` by a
duplicate-free, covering key list gives the total sum. -/
theorem sum_partition {κ α : Type} [DecidableEq κ] (key : α → κ) (f : α → ℚ) :
    ∀ (rows : List α) (keys : List κ), keys.Nodup →
      (∀ r ∈ rows, key r ∈ keys) →
      (keys.map
        (fun k => ((rows.filter (fun r => decide (key r = k))).map f).sum)).sum
        = (rows.map f).sum := by
  intro rows
  induction rows with
  | nil => intro keys _ _; simp [List.sum_eq_zero]
  | cons r rs ih =>
    intro keys hnd hcov
    have hstep : ∀ k : κ,
        (((r :: rs).filter (fun r' => decide (key r' = k))).map f).sum
          = (if key r = k then f r else 0)
            + ((rs.filter (fun r' => decide (key r' = k))).map f).sum := by
      intro k
      by_cases h : key r = k
      · simp [List.filter_cons, h]
      · simp [List.filter_cons, h]
    calc (keys.map (fun k =>
            (((r :: rs).filter (fun r' => decide (key r' = k))).map f).sum)).sum
        = (keys.map (fun k => (if key r = k then f r else 0)
            + ((rs.filter (fun r' => decide (key r' = k))).map f).sum)).sum := by
          congr 1
          exact List.map_congr_left (fun k _ => hstep k)
      _ = (keys.map (fun k => if key r = k then f r else 0)).sum
            + (keys.map (fun k =>
                ((rs.filter (fun r' => decide (key r' = k))).map f).sum)).sum :=
          sum_map_add keys _ _
      _ = f r + (rs.map f).sum := by
          rw [sum_map_ite (key r) (f r) keys hnd
              (hcov r (List.mem_cons_self _ _)),
            ih keys hnd (fun r' hr' => hcov r' (List.mem_cons_of_mem _ hr'))]
      _ = ((r :: rs).map f).sum := by simp

/-! ### Lemmas about `pandasMode`, `modeOrFirst` and `aggMax` -/

theorem occCount_pos {α : Type} [DecidableEq α] {xs : List α} {x : α}
    (hx : x ∈ xs) : 0 < occCount x xs := by
  rw [occCount, List.length_pos]
  intro hnil
  have : x ∈ xs.filter (fun y => decide (y = x)) :=
    List.mem_filter.mpr ⟨hx, by simp⟩
  rw [hnil] at this
  cases this

theorem le_foldr_max {l : List ℕ} {a : ℕ} (ha : a ∈ l) :
    a ≤ l.foldr max 0 := by
  induction l with
  | nil => cases ha
  | cons b bs ih =>
    rcases List.mem_cons.mp ha with he | hm
    · subst he; exact le_max_left _ _
    · exact le_trans (ih hm) (le_max_right _ _)

theorem foldr_max_mem : ∀ l : List ℕ, l.foldr max 0 ∈ l ∨ l.foldr max 0 = 0 := by
  intro l
  induction l with
  | nil => exact Or.inr rfl
  | cons b bs ih =>
    simp only [List.foldr_cons]
    rcases max_choice b (bs.foldr max 0) with h | h
    · rw [h]; exact Or.inl (List.mem_cons_self _ _)
    · rw [h]
      rcases ih with hm | hz
      · exact Or.inl (List.mem_cons_of_mem _ hm)
      · exact Or.inr hz

theorem occCount_le_maxCount {α : Type} [DecidableEq α] {xs : List α} {x : α}
    (hx : x ∈ xs) : occCount x xs ≤ maxCount xs :=
  le_foldr_max (List.mem_map.mpr ⟨x, hx, rfl⟩)

theorem maxCount_attained {α : Type} [DecidableEq α] {xs : List α}
    (h : xs ≠ []) : ∃ x ∈ xs, occCount x xs = maxCount xs := by
  rcases foldr_max_mem (xs.map (fun x => occCount x xs)) with hm | hz
  · rcases List.mem_map.mp hm with ⟨x, hx, he⟩
    exact ⟨x, hx, he⟩
  · rcases List.exists_mem_of_ne_nil xs h with ⟨x, hx⟩
    have h1 : 0 < occCount x xs := occCount_pos hx
    have h2 : occCount x xs ≤ maxCount xs := occCount_le_maxCount hx
    rw [maxCount, hz] at h2
    omega

/-- The head of an insertion-sorted list is `le`-below every element, for a
total transitive `le`. -/
theorem sortBy_head_le {κ : Type} {le : κ → κ → Bool}
    (htot : ∀ a b, le a b = true ∨ le b a = true)
    (htrans : ∀ a b c, le a b = true → le b c = true → le a c = true) :
    ∀ (l : List κ) (m : κ), (sortBy le l).head? = some m →
      ∀ x ∈ l, le m x = true := by
  intro l
  induction l with
  | nil => intro m hm; simp [sortBy] at hm
  | cons a as ih =>
    intro m hm x hx
    have hsa : sortBy le (a :: as) = insertSorted le a (sortBy le as) := rfl
    rw [hsa] at hm
    cases hsb : sortBy le as with
    | nil =>
      rw [hsb] at hm
      simp only [insertSorted, List.head?_cons, Option.some.injEq] at hm
      have hanil : as = [] := by
        have := (sortBy_perm le as).length_eq
        rw [hsb] at this
        exact List.eq_nil_of_length_eq_zero this.symm
      subst hanil
      rcases List.mem_cons.mp hx with he | hc
      · rw [← hm, he]; rcases htot a a with h | h <;> exact h
      · cases hc
    | cons y ys =>
      rw [hsb] at hm
      have hyall : ∀ z ∈ as, le y z = true := by
        intro z hz
        exact ih y (by rw [hsb]; rfl) z hz
      simp only [insertSorted] at hm
      by_cases hay : le a y = true
      · rw [if_pos hay] at hm
        simp only [List.head?_cons, Option.some.injEq] at hm
        rcases List.mem_cons.mp hx with he | hc
        · rw [← hm, he]; rcases htot a a with h | h <;> exact h
        · rw [← hm]; exact htrans a y x hay (hyall x hc)
      · rw [if_neg hay] at hm
        simp only [List.head?_cons, Option.some.injEq] at hm
        have hya : le y a = true := by
          rcases htot a y with h | h
          · exact absurd h hay
          · exact h
        rcases List.mem_cons.mp hx with he | hc
        · rw [← hm, he]; exact hya
        · rw [← hm]; exact hyall x hc

theorem pandasMode_spec {α : Type} [DecidableEq α] {le : α → α → Bool}
    {xs : List α} {m : α} (hm : pandasMode le xs = some m) :
    m ∈ xs ∧ occCount m xs = maxCount xs := by
  rw [pandasMode] at hm
  have hmem : m ∈ sortBy le ((distinctKeys id xs).filter
      (fun x => decide (occCount x xs = maxCount xs))) := by
    cases hsb : sortBy le ((distinctKeys id xs).filter
        (fun x => decide (occCount x xs = maxCount xs))) with
    | nil => rw [hsb] at hm; cases hm
    | cons y ys =>
      rw [hsb] at hm
      simp only [List.head?_cons, Option.some.injEq] at hm
      rw [← hm]
      exact List.mem_cons_self _ _
  have hmem2 := List.mem_filter.mp (mem_sortBy.mp hmem)
  refine ⟨?_, of_decide_eq_true hmem2.2⟩
  rcases mem_distinctKeys.mp hmem2.1 with ⟨r, hr, hrk⟩
  have hrm : r = m := hrk
  exact hrm ▸ hr

theorem pandasMode_isSome {α : Type} [DecidableEq α] (le : α → α → Bool)
    {xs : List α} (h : xs ≠ []) : ∃ m, pandasMode le xs = some m := by
  rcases maxCount_attained h with ⟨x, hx, hcx⟩
  have hxin : x ∈ (distinctKeys id xs).filter
      (fun x => decide (occCount x xs = maxCount xs)) :=
    List.mem_filter.mpr ⟨mem_distinctKeys.mpr ⟨x, hx, rfl⟩, by simp [hcx]⟩
  have : x ∈ sortBy le ((distinctKeys id xs).filter
      (fun x => decide (occCount x xs = maxCount xs))) := mem_sortBy.mpr hxin
  cases hsb : sortBy le ((distinctKeys id xs).filter
      (fun x => decide (occCount x xs = maxCount xs))) with
  | nil => rw [hsb] at this; cases this
  | cons y ys => exact ⟨y, by rw [pandasMode, hsb]; rfl⟩

theorem pandasMode_min {α : Type} [DecidableEq α] {le : α → α → Bool}
    (htot : ∀ a b, le a b = true ∨ le b a = true)
    (htrans : ∀ a b c, le a b = true → le b c = true → le a c = true)
    {xs : List α} {m : α} (hm : pandasMode le xs = some m) :
    ∀ x ∈ xs, occCount x xs = maxCount xs → le m x = true := by
  intro x hx hcx
  rw [pandasMode] at hm
  exact sortBy_head_le htot htrans _ m hm x
    (List.mem_filter.mpr ⟨mem_distinctKeys.mpr ⟨x, hx, rfl⟩, by simp [hcx]⟩)

theorem modeOrFirst_eq_pandasMode {α : Type} [DecidableEq α]
    (le : α → α → Bool) {xs : List α} (h : xs ≠ []) :
    modeOrFirst le xs = pandasMode le xs := by
  rcases pandasMode_isSome le h with ⟨m, hm⟩
  rw [modeOrFirst, hm]

theorem aggMax_spec : ∀ {xs : List ℚ} {m : ℚ}, aggMax xs = some m →
    m ∈ xs ∧ ∀ x ∈ xs, x ≤ m := by
  have hfold : ∀ (xs : List ℚ) (a : ℚ),
      xs.foldl max a ∈ a :: xs ∧ ∀ x ∈ a :: xs, x ≤ xs.foldl max a := by
    intro xs
    induction xs with
    | nil => intro a; exact ⟨List.mem_cons_self _ _, by simp⟩
    | cons b bs ih =>
      intro a
      have h1 := (ih (max a b)).1
      have h2 := (ih (max a b)).2
      constructor
      · rcases List.mem_cons.mp h1 with he | hm
        · rcases max_choice a b with hc | hc
          · rw [List.foldl_cons, he, hc]; exact List.mem_cons_self _ _
          · rw [List.foldl_cons, he, hc]
            exact List.mem_cons_of_mem _ (List.mem_cons_self _ _)
        · exact List.mem_cons_of_mem _ (List.mem_cons_of_mem _ hm)
      · intro x hx
        rcases List.mem_cons.mp hx with he | hm
        · subst he
          exact le_trans (le_max_left x b) (h2 _ (List.mem_cons_self _ _))
        · rcases List.mem_cons.mp hm with he' | hm'
          · subst he'
            exact le_trans (le_max_right a x) (h2 _ (List.mem_cons_self _ _))
          · exact h2 x (List.mem_cons_of_mem _ hm')
  intro xs m hm
  cases xs with
  | nil => cases hm
  | cons x xs' =>
    simp only [aggMax, Option.some.injEq] at hm
    subst hm
    exact hfold xs' x

theorem aggMax_isSome {xs : List ℚ} (h : xs ≠ []) :
    ∃ m, aggMax xs = some m := by
  cases xs with
  | nil => exact absurd rfl h
  | cons x xs' => exact ⟨xs'.foldl max x, rfl⟩

/-! ### Lemmas about `numberFrom` and `groupRows` -/

theorem mem_numberFrom {α : Type} :
    ∀ {l : List α} {n i : Int} {a : α}, (i, a) ∈ numberFrom n l →
      a ∈ l ∧ n ≤ i := by
  intro l
  induction l with
  | nil => intro n i a h; cases h
  | cons b bs ih =>
    intro n i a h
    rcases List.mem_cons.mp h with he | hm
    · rw [Prod.mk.injEq] at he
      exact ⟨he.2 ▸ List.mem_cons_self _ _, le_of_eq he.1.symm⟩
    · rcases ih hm with ⟨h1, h2⟩
      exact ⟨List.mem_cons_of_mem _ h1, by omega⟩

theorem mem_numberFrom_of_mem {α : Type} {l : List α} {a : α} (ha : a ∈ l) :
    ∀ n : Int, ∃ i, (i, a) ∈ numberFrom n l := by
  induction l with
  | nil => cases ha
  | cons b bs ih =>
    intro n
    rcases List.mem_cons.mp ha with he | hm
    · exact ⟨n, he ▸ List.mem_cons_self _ _⟩
    · rcases ih hm (n + 1) with ⟨i, hi⟩
      exact ⟨i, List.mem_cons_of_mem _ hi⟩

theorem mem_groupRows {κ α : Type} [DecidableEq κ] {le : κ → κ → Bool}
    {key : α → κ} {rows : List α} {k : κ} {g : List α}
    (h : (k, g) ∈ groupRows le key rows) :
    g = rows.filter (fun r => decide (key r = k)) ∧
      (∃ r ∈ rows, key r = k) := by
  rcases List.mem_map.mp h with ⟨k', hk', he⟩
  rw [Prod.mk.injEq] at he
  rcases he with ⟨he1, he2⟩
  subst he1
  exact ⟨he2.symm, mem_distinctKeys.mp (mem_sortBy.mp hk')⟩

theorem groupRows_ne_nil {κ α : Type} [DecidableEq κ] {le : κ → κ → Bool}
    {key : α → κ} {rows : List α} {k : κ} {g : List α}
    (h : (k, g) ∈ groupRows le key rows) : g ≠ [] := by
  rcases mem_groupRows h with ⟨hg, r, hr, hk⟩
  rw [hg]
  intro hnil
  have : r ∈ rows.filter (fun r => decide (key r = k)) :=
    List.mem_filter.mpr ⟨hr, by simp [hk]⟩
  rw [hnil] at this
  cases this

theorem groupRows_snd_ne_nil {κ α : Type} [DecidableEq κ]
    {le : κ → κ → Bool} {key : α → κ} {rows : List α} {p : κ × List α}
    (hp : p ∈ groupRows le key rows) : p.2 ≠ [] := by
  rcases p with ⟨k, g⟩
  exact groupRows_ne_nil hp

theorem groupRows_keys_nodup {κ α : Type} [DecidableEq κ]
    (le : κ → κ → Bool) (key : α → κ) (rows : List α) :
    ((groupRows le key rows).map Prod.fst).Nodup := by
  have h1 : (groupRows le key rows).map Prod.fst
      = sortBy le (distinctKeys key rows) := by
    rw [groupRows, List.map_map]
    rw [show (Prod.fst ∘ fun k =>
      (k, rows.filter (fun r => decide (key r = k)))) = id from rfl]
    exact List.map_id _
  rw [h1]
  exact ((sortBy_perm le _).nodup_iff).mpr (distinctKeys_nodup key rows)

theorem groupRows_exists {κ α : Type} [DecidableEq κ] (le : κ → κ → Bool)
    (key : α → κ) {rows : List α} {r : α} (hr : r ∈ rows) :
    ∃ g, (key r, g) ∈ groupRows le key rows ∧ r ∈ g := by
  have hk : key r ∈ sortBy le (distinctKeys key rows) :=
    mem_sortBy.mpr (mem_distinctKeys.mpr ⟨r, hr, rfl⟩)
  refine ⟨rows.filter (fun r' => decide (key r' = key r)),
    List.mem_map.mpr ⟨key r, hk, rfl⟩,
    List.mem_filter.mpr ⟨hr, by simp⟩⟩

/-- The full characterization of the `mode-or-first` aggregate on a nonempty
null-free series, for a boolean order that decides a linear order: the result
is a member, attains the maximal multiplicity, and is the least value doing
so (pandas `mode()` returns the tied values sorted ascending). -/
theorem modeOrFirst_linear_spec {α : Type} [DecidableEq α] [LinearOrder α]
    {le : α → α → Bool} (hle : ∀ a b, le a b = true ↔ a ≤ b)
    {xs : List α} {m : α} (hne : xs ≠ [])
    (h : modeOrFirst le xs = some m) :
    m ∈ xs ∧ occCount m xs = maxCount xs ∧
      ∀ x ∈ xs, occCount x xs = maxCount xs → m ≤ x := by
  rw [modeOrFirst_eq_pandasMode le hne] at h
  have htot : ∀ a b : α, le a b = true ∨ le b a = true := by
    intro a b
    rcases le_total a b with hab | hab
    · exact Or.inl ((hle a b).mpr hab)
    · exact Or.inr ((hle b a).mpr hab)
  have htrans : ∀ a b c : α, le a b = true → le b c = true →
      le a c = true := by
    intro a b c h1 h2
    exact (hle a c).mpr (le_trans ((hle a b).mp h1) ((hle b c).mp h2))
  obtain ⟨h1, h2⟩ := pandasMode_spec h
  refine ⟨h1, h2, fun x hx hcx => ?_⟩
  exact (hle m x).mp (pandasMode_min htot htrans h x hx hcx)

theorem modeOrFirst_isSome {α : Type} [DecidableEq α] (le : α → α → Bool)
    {xs : List α} (h : xs ≠ []) : ∃ m, modeOrFirst le xs = some m := by
  rcases pandasMode_isSome le h with ⟨m, hm⟩
  exact ⟨m, by rw [modeOrFirst, hm]⟩

/-! ### `filterMap` / `numberFrom` bookkeeping -/

theorem length_filterMap_of_isSome {α β : Type} {f : α → Option β} :
    ∀ {l : List α}, (∀ a ∈ l, (f a).isSome) →
      (l.filterMap f).length = l.length := by
  intro l
  induction l with
  | nil => intro _; rfl
  | cons a as ih =>
    intro h
    cases hfa : f a with
    | none =>
      have := h a (List.mem_cons_self _ _)
      rw [hfa] at this
      cases this
    | some b =>
      rw [List.filterMap_cons_some hfa, List.length_cons, List.length_cons,
        ih (fun a' ha' => h a' (List.mem_cons_of_mem _ ha'))]

theorem numberFrom_length {α : Type} :
    ∀ (l : List α) (n : Int), (numberFrom n l).length = l.length := by
  intro l
  induction l with
  | nil => intro n; rfl
  | cons a as ih => intro n; simp [numberFrom, ih]

theorem numberFrom_filterMap_lb {α β : Type} {f : Int × α → Option β}
    {g : β → Int} (hfg : ∀ p b, f p = some b → g b = p.1) :
    ∀ (l : List α) (n : Int) (b : β),
      b ∈ (numberFrom n l).filterMap f → n ≤ g b := by
  intro l
  induction l with
  | nil => intro n b hb; cases hb
  | cons a as ih =>
    intro n b hb
    rw [show numberFrom n (a :: as) = (n, a) :: numberFrom (n + 1) as
      from rfl] at hb
    cases hfa : f (n, a) with
    | none =>
      rw [List.filterMap_cons_none hfa] at hb
      have := ih (n + 1) b hb
      omega
    | some c =>
      rw [List.filterMap_cons_some hfa] at hb
      rcases List.mem_cons.mp hb with he | hm
      · subst he; exact le_of_eq (hfg _ _ hfa).symm
      · have := ih (n + 1) b hm
        omega

theorem numberFrom_filterMap_nodup {α β : Type} {f : Int × α → Option β}
    {g : β → Int} (hfg : ∀ p b, f p = some b → g b = p.1) :
    ∀ (l : List α) (n : Int),
      (((numberFrom n l).filterMap f).map g).Nodup := by
  intro l
  induction l with
  | nil => intro n; simp [numberFrom]
  | cons a as ih =>
    intro n
    rw [show numberFrom n (a :: as) = (n, a) :: numberFrom (n + 1) as
      from rfl]
    cases hfa : f (n, a) with
    | none => rw [List.filterMap_cons_none hfa]; exact ih (n + 1)
    | some c =>
      rw [List.filterMap_cons_some hfa, List.map_cons]
      refine List.Nodup.cons ?_ (ih (n + 1))
      intro hmem
      rcases List.mem_map.mp hmem with ⟨b, hb, hgb⟩
      have h1 := numberFrom_filterMap_lb hfg as (n + 1) b hb
      have h2 := hfg _ _ hfa
      omega

theorem nodup_map_eq {α β : Type} {f : α → β} :
    ∀ {l : List α}, (l.map f).Nodup →
      ∀ a ∈ l, ∀ b ∈ l, f a = f b → a = b := by
  intro l
  induction l with
  | nil => intro _ a ha; cases ha
  | cons c cs ih =>
    intro h a ha b hb hfab
    rw [List.map_cons, List.nodup_cons] at h
    rcases List.mem_cons.mp ha with hea | hma <;>
      rcases List.mem_cons.mp hb with heb | hmb
    · rw [hea, heb]
    · subst hea
      exact absurd (List.mem_map.mpr ⟨b, hmb, hfab.symm⟩) h.1
    · subst heb
      exact absurd (List.mem_map.mpr ⟨a, hma, hfab⟩) h.1
    · exact ih h.2 a hma b hmb hfab

theorem filter_length_le_one_of_nodup_map {α β : Type} [DecidableEq β]
    {f : α → β} :
    ∀ {l : List α}, (l.map f).Nodup → ∀ b : β,
      (l.filter (fun a => decide (f a = b))).length ≤ 1 := by
  intro l
  induction l with
  | nil => intro _ b; simp
  | cons c cs ih =>
    intro h b
    rw [List.map_cons, List.nodup_cons] at h
    by_cases hc : f c = b
    · have hcons : (c :: cs).filter (fun a => decide (f a = b))
          = c :: cs.filter (fun a => decide (f a = b)) := by
        simp [List.filter_cons, hc]
      have hnil : cs.filter (fun a => decide (f a = b)) = [] := by
        rw [List.filter_eq_nil_iff]
        intro a ha
        simp only [decide_eq_true_eq]
        intro hab
        exact h.1 (List.mem_map.mpr ⟨a, ha, by rw [hab, hc]⟩)
      rw [hcons, hnil]
      simp
    · have hcons : (c :: cs).filter (fun a => decide (f a = b))
          = cs.filter (fun a => decide (f a = b)) := by
        simp [List.filter_cons, hc]
      rw [hcons]
      exact ih h.2 b

theorem map_ne_nil {α β : Type} {l : List α} (f : α → β) (h : l ≠ []) :
    l.map f ≠ [] := by
  cases l with
  | nil => exact absurd rfl h
  | cons a as => simp

theorem head?_isSome_of_ne_nil {α : Type} {l : List α} (h : l ≠ []) :
    ∃ a, l.head? = some a := by
  cases l with
  | nil => exact absurd rfl h
  | cons a as => exact ⟨a, rfl⟩

theorem flatMap_length_ge {α β : Type} {f : α → List β} :
    ∀ {l : List α}, (∀ a ∈ l, f a ≠ []) → l.length ≤ (l.flatMap f).length := by
  intro l
  induction l with
  | nil => intro _; simp
  | cons a as ih =>
    intro h
    rw [List.flatMap_cons, List.length_append, List.length_cons]
    have h1 : 1 ≤ (f a).length := by
      rcases List.exists_mem_of_ne_nil _ (h a (List.mem_cons_self _ _)) with
        ⟨b, hb⟩
      exact List.length_pos.mpr (fun hnil => by rw [hnil] at hb; cases hb)
    have h2 := ih (fun a' ha' => h a' (List.mem_cons_of_mem _ ha'))
    omega

/-! ### Aggregates of a two-element series -/

theorem aggMax_pair (a b : ℚ) : aggMax [a, b] = some (max a b) := rfl

theorem modeOrFirst_pair {α : Type} [DecidableEq α] (le : α → α → Bool)
    (a b : α) :
    modeOrFirst le [a, b]
      = some (if a = b then a else if le a b then a else b) := by
  by_cases hab : a = b
  · subst hab
    rw [if_pos rfl]
    simp [modeOrFirst, pandasMode, distinctKeys, occCount, maxCount, sortBy,
      insertSorted, List.filter]
  · rw [if_neg hab]
    have hba : ¬ b = a := fun h => hab h.symm
    by_cases hle : le a b
    · simp [modeOrFirst, pandasMode, distinctKeys, occCount, maxCount,
        sortBy, insertSorted, List.filter, hab, hba, hle]
    · simp [modeOrFirst, pandasMode, distinctKeys, occCount, maxCount,
        sortBy, insertSorted, List.filter, hab, hba, hle]

/-! ### Lemmas about the deduplication stage -/

theorem dedupeAgg_eq_some {k : DedupKey} {g : List Row1} (hne : g ≠ []) :
    ∃ d, dedupeAgg (k, g) = some d ∧
      d.check_id = k.check_id ∧ d.item_name = k.item_name ∧
      d.date = k.date ∧ d.sale_time_exact = k.sale_time_exact ∧
      d.is_beverage_on_check = k.is_beverage_on_check ∧
      d.cost_center = k.cost_center ∧
      aggMax (g.map (fun r => r.gross_revenue)) = some d.gross_revenue ∧
      modeOrFirst strLE (g.map (fun r => r.category)) = some d.category ∧
      modeOrFirst strLE (g.map (fun r => r.day_part)) = some d.day_part ∧
      ∃ h0, g.head? = some h0 ∧ d.group = h0.group := by
  obtain ⟨rev, hrev⟩ := aggMax_isSome (map_ne_nil _ hne)
  obtain ⟨cat, hcat⟩ := modeOrFirst_isSome strLE
    (map_ne_nil (fun r : Row1 => r.category) hne)
  obtain ⟨dp, hdp⟩ := modeOrFirst_isSome strLE
    (map_ne_nil (fun r : Row1 => r.day_part) hne)
  obtain ⟨h0, hh0⟩ := head?_isSome_of_ne_nil hne
  refine ⟨{ check_id := k.check_id, item_name := k.item_name, date := k.date,
            sale_time_exact := k.sale_time_exact,
            is_beverage_on_check := k.is_beverage_on_check,
            cost_center := k.cost_center, gross_revenue := rev,
            category := cat, day_part := dp, group := h0.group }, ?_,
    rfl, rfl, rfl, rfl, rfl, rfl, hrev, hcat, hdp, h0, hh0, rfl⟩
  simp only [dedupeAgg, hrev, hcat, hdp, hh0]

theorem dedupe_of_group {rows : List Row1} {k : DedupKey} {g : List Row1}
    (hp : (k, g) ∈ groupRows dedupKeyLE dedupKey rows) :
    ∃ d ∈ dedupe rows,
      d.check_id = k.check_id ∧ d.item_name = k.item_name ∧
      d.date = k.date ∧ d.sale_time_exact = k.sale_time_exact ∧
      d.is_beverage_on_check = k.is_beverage_on_check ∧
      d.cost_center = k.cost_center ∧
      aggMax (g.map (fun r => r.gross_revenue)) = some d.gross_revenue ∧
      modeOrFirst strLE (g.map (fun r => r.category)) = some d.category ∧
      modeOrFirst strLE (g.map (fun r => r.day_part)) = some d.day_part ∧
      ∃ h0, g.head? = some h0 ∧ d.group = h0.group := by
  obtain ⟨d, hd, hrest⟩ := dedupeAgg_eq_some (groupRows_ne_nil hp)
  exact ⟨d, List.mem_filterMap.mpr ⟨(k, g), hp, hd⟩, hrest⟩

theorem dedupe_length (rows : List Row1) :
    (dedupe rows).length = (groupRows dedupKeyLE dedupKey rows).length := by
  refine length_filterMap_of_isSome ?_
  rintro ⟨k, g⟩ hp
  obtain ⟨d, hd, -⟩ := dedupeAgg_eq_some (groupRows_ne_nil hp)
  rw [hd]
  rfl

/-! ### Lemmas about the item dimension -/

theorem itemAgg_eq_some {p : Int × (ItemKey × List CleanRow)} {it : Item}
    (h : itemAgg p = some it) :
    it.item_id = p.1 ∧ itemKeyI it = p.2.1 ∧
      modeOrFirst qLE (p.2.2.map (fun r => r.gross_revenue))
        = some it.price := by
  cases hm : modeOrFirst qLE (p.2.2.map (fun r => r.gross_revenue)) with
  | none => rw [itemAgg, hm] at h; cases h
  | some pr =>
    rw [itemAgg, hm] at h
    rw [Option.some.injEq] at h
    subst h
    exact ⟨rfl, rfl, rfl⟩

theorem itemAgg_id (p : Int × (ItemKey × List CleanRow)) (it : Item)
    (h : itemAgg p = some it) : it.item_id = p.1 :=
  (itemAgg_eq_some h).1

theorem mem_buildItems {rows : List CleanRow} {it : Item}
    (h : it ∈ buildItems rows) :
    1 ≤ it.item_id ∧
      ∃ g, (itemKeyI it, g) ∈ groupRows itemKeyLE itemKey
          (rows.filter (fun r => decide (0 < r.gross_revenue))) ∧
        modeOrFirst qLE (g.map (fun r => r.gross_revenue))
          = some it.price := by
  rw [buildItems] at h
  rcases List.mem_filterMap.mp h with ⟨p, hp, hfp⟩
  rcases p with ⟨i, k, g⟩
  obtain ⟨hid, hkey, hmode⟩ := itemAgg_eq_some hfp
  have hmem := mem_numberFrom hp
  refine ⟨by rw [hid]; exact hmem.2, g, ?_, hmode⟩
  rw [hkey]
  exact hmem.1

theorem buildItems_price_pos {rows : List CleanRow} {it : Item}
    (h : it ∈ buildItems rows) : 0 < it.price := by
  obtain ⟨-, g, hg, hmode⟩ := mem_buildItems h
  have hne : g ≠ [] := groupRows_ne_nil hg
  obtain ⟨hmem, -, -⟩ := modeOrFirst_linear_spec qLE_iff
    (map_ne_nil _ hne) hmode
  rcases List.mem_map.mp hmem with ⟨r, hr, hre⟩
  have hgf := (mem_groupRows hg).1
  rw [hgf] at hr
  have h1 := (List.mem_filter.mp hr).1
  have h2 := (List.mem_filter.mp h1).2
  rw [← hre]
  exact of_decide_eq_true h2

theorem buildItems_id_nodup (rows : List CleanRow) :
    ((buildItems rows).map (fun it => it.item_id)).Nodup :=
  numberFrom_filterMap_nodup itemAgg_id _ 1

theorem buildItems_find?_eq_none {rows : List CleanRow} {k : ItemKey}
    (hk : ∀ r ∈ rows, itemKey r = k → r.gross_revenue ≤ 0) :
    (buildItems rows).find? (fun it => decide (itemKeyI it = k)) = none := by
  rw [List.find?_eq_none]
  intro it hit
  simp only [decide_eq_true_eq]
  intro hke
  obtain ⟨-, g, hg, -⟩ := mem_buildItems hit
  rw [hke] at hg
  rcases (mem_groupRows hg).2 with ⟨r, hr, hkr⟩
  have hm := List.mem_filter.mp hr
  have hpos : 0 < r.gross_revenue := of_decide_eq_true hm.2
  exact absurd hpos (not_lt.mpr (hk r hm.1 hkr))

/-! ### Lemmas about the transactions fact table -/

theorem txAgg_eq_some {p : Int × (Int × List CleanRow)} {t : FactTransaction}
    (h : txAgg p = some t) :
    t.transaction_id = p.1 ∧ t.check_id = p.2.1 ∧
      t.total_amount = (p.2.2.map (fun r => r.gross_revenue)).sum := by
  cases hh : p.2.2.head? with
  | none => rw [txAgg, hh] at h; cases h
  | some h0 =>
    rw [txAgg, hh] at h
    rw [Option.some.injEq] at h
    subst h
    exact ⟨rfl, rfl, rfl⟩

theorem txAgg_id (p : Int × (Int × List CleanRow)) (t : FactTransaction)
    (h : txAgg p = some t) : t.transaction_id = p.1 :=
  (txAgg_eq_some h).1

theorem mem_buildTransactions {rows : List CleanRow} {t : FactTransaction}
    (h : t ∈ buildTransactions rows) :
    1 ≤ t.transaction_id ∧ (∃ r ∈ rows, r.check_id = t.check_id) ∧
      t.total_amount
        = ((rows.filter (fun r => decide (r.check_id = t.check_id))).map
            (fun r => r.gross_revenue)).sum := by
  rw [buildTransactions] at h
  rcases List.mem_filterMap.mp h with ⟨p, hp, hfp⟩
  rcases p with ⟨i, k, g⟩
  obtain ⟨hid, hck, htot⟩ := txAgg_eq_some hfp
  have hid' : t.transaction_id = i := hid
  have hck' : t.check_id = k := hck
  have htot' : t.total_amount = (g.map (fun r => r.gross_revenue)).sum := htot
  have hmem := mem_numberFrom hp
  obtain ⟨hgf, r, hr, hkr⟩ := mem_groupRows hmem.1
  refine ⟨by rw [hid']; exact hmem.2, ⟨r, hr, by rw [hkr, ← hck']⟩, ?_⟩
  rw [htot', hgf, ← hck']

theorem buildTransactions_exists {rows : List CleanRow} {r : CleanRow}
    (hr : r ∈ rows) :
    ∃ t ∈ buildTransactions rows, t.check_id = r.check_id := by
  obtain ⟨g, hg, hrg⟩ := groupRows_exists (fun a b => decide (a ≤ b))
    (fun r : CleanRow => r.check_id) hr
  have hne : g ≠ [] := groupRows_ne_nil hg
  obtain ⟨i, hi⟩ := mem_numberFrom_of_mem hg 1
  obtain ⟨h0, hh0⟩ := head?_isSome_of_ne_nil hne
  have hsome : txAgg (i, (r.check_id, g)) = some
      { transaction_id := i
        check_id := r.check_id
        timestamp := h0.timestamp
        total_amount := (g.map (fun r => r.gross_revenue)).sum
        num_items := g.length
        transaction_cost_center := h0.cost_center
        top_group := pandasMode strLE (g.map (fun r => r.group))
        has_beverage := h0.is_beverage
        day_part := h0.day_part } := by
    simp only [txAgg, hh0]
  exact ⟨_, List.mem_filterMap.mpr ⟨(i, (r.check_id, g)), hi, hsome⟩, rfl⟩

theorem buildTransactions_id_nodup (rows : List CleanRow) :
    ((buildTransactions rows).map (fun t => t.transaction_id)).Nodup :=
  numberFrom_filterMap_nodup txAgg_id _ 1

theorem txAgg_isSome {p : Int × (Int × List CleanRow)} (hne : p.2.2 ≠ []) :
    ∃ t, txAgg p = some t := by
  obtain ⟨h0, hh0⟩ := head?_isSome_of_ne_nil hne
  refine ⟨{ transaction_id := p.1
            check_id := p.2.1
            timestamp := h0.timestamp
            total_amount := (p.2.2.map (fun r => r.gross_revenue)).sum
            num_items := p.2.2.length
            transaction_cost_center := h0.cost_center
            top_group := pandasMode strLE (p.2.2.map (fun r => r.group))
            has_beverage := h0.is_beverage
            day_part := h0.day_part }, ?_⟩
  simp only [txAgg, hh0]

theorem numberFrom_map_snd {α β : Type} (h : α → β) :
    ∀ (l : List α) (n : Int),
      (numberFrom n l).map (fun p => h p.2) = l.map h := by
  intro l
  induction l with
  | nil => intro n; rfl
  | cons a as ih => intro n; simp only [numberFrom, List.map_cons, ih]

theorem txAgg_filterMap_map {γ : Type} (F : FactTransaction → γ)
    (G : Int × (Int × List CleanRow) → γ)
    (hFG : ∀ p t, txAgg p = some t → F t = G p) :
    ∀ (gs : List (Int × List CleanRow)) (n : Int),
      (∀ p ∈ gs, p.2 ≠ []) →
      ((numberFrom n gs).filterMap txAgg).map F = (numberFrom n gs).map G := by
  intro gs
  induction gs with
  | nil => intro n _; rfl
  | cons q qs ih =>
    intro n hne
    rw [show numberFrom n (q :: qs) = (n, q) :: numberFrom (n + 1) qs
      from rfl]
    obtain ⟨t, ht⟩ :=
      @txAgg_isSome (n, q) (hne q (List.mem_cons_self _ _))
    rw [List.filterMap_cons_some ht, List.map_cons, List.map_cons,
      hFG _ _ ht, ih (n + 1) (fun p hp => hne p (List.mem_cons_of_mem _ hp))]

theorem buildTransactions_check_eq (rows : List CleanRow) :
    (buildTransactions rows).map (fun t => t.check_id)
      = (groupRows (fun a b => decide (a ≤ b))
          (fun r : CleanRow => r.check_id) rows).map Prod.fst := by
  rw [buildTransactions,
    txAgg_filterMap_map (fun t => t.check_id) (fun p => p.2.1)
      (fun p t ht => (txAgg_eq_some ht).2.1) _ 1
      (fun p hp => groupRows_snd_ne_nil hp),
    numberFrom_map_snd Prod.fst]

theorem buildTransactions_check_nodup (rows : List CleanRow) :
    ((buildTransactions rows).map (fun t => t.check_id)).Nodup := by
  rw [buildTransactions_check_eq]
  exact groupRows_keys_nodup _ _ _

theorem buildTransactions_total_sum (rows : List CleanRow) :
    ((buildTransactions rows).map (fun t => t.total_amount)).sum
      = (rows.map (fun r => r.gross_revenue)).sum := by
  rw [buildTransactions,
    txAgg_filterMap_map (fun t => t.total_amount)
      (fun p => (p.2.2.map (fun r => r.gross_revenue)).sum)
      (fun p t ht => (txAgg_eq_some ht).2.2) _ 1
      (fun p hp => groupRows_snd_ne_nil hp),
    numberFrom_map_snd (fun q : Int × List CleanRow =>
      (q.2.map (fun r => r.gross_revenue)).sum),
    groupRows, List.map_map]
  rw [show ((fun q : Int × List CleanRow =>
        (q.2.map (fun r => r.gross_revenue)).sum)
      ∘ (fun k => (k, rows.filter (fun r => decide (r.check_id = k)))))
    = (fun k => (((rows.filter (fun r => decide (r.check_id = k))).map
        (fun r => r.gross_revenue)).sum)) from rfl]
  exact sum_partition (fun r : CleanRow => r.check_id)
    (fun r => r.gross_revenue) rows _
    ((sortBy_perm _ _).nodup_iff.mpr (distinctKeys_nodup _ rows))
    (fun r hr => mem_sortBy.mpr (mem_distinctKeys.mpr ⟨r, hr, rfl⟩))

/-! ### Lemmas about the line-items fact table -/

theorem buildLineItems_gross (rows : List CleanRow) (items : List Item)
    (txs : List FactTransaction) :
    (buildLineItems rows items txs).map (fun li => li.gross_revenue)
      = rows.map (fun r => r.gross_revenue) := by
  rw [buildLineItems, List.map_map]
  rw [show ((fun li : LineItem => li.gross_revenue) ∘ lineItemOf items txs)
    = (fun p : Int × CleanRow => p.2.gross_revenue) from rfl]
  exact numberFrom_map_snd (fun r : CleanRow => r.gross_revenue) rows 1

theorem mem_buildLineItems {rows : List CleanRow} {items : List Item}
    {txs : List FactTransaction} {li : LineItem}
    (h : li ∈ buildLineItems rows items txs) :
    ∃ r ∈ rows,
      li.transaction_id = (txs.find? (fun t =>
        decide (t.check_id = r.check_id))).map (fun t => t.transaction_id) ∧
      li.item_id = (items.find? (fun it =>
        decide (itemKeyI it = itemKey r))).map (fun it => it.item_id) ∧
      li.gross_revenue = r.gross_revenue := by
  rw [buildLineItems] at h
  rcases List.mem_map.mp h with ⟨p, hp, he⟩
  rcases p with ⟨i, r⟩
  have hr := (mem_numberFrom hp).1
  exact ⟨r, hr, by rw [← he]; exact ⟨rfl, rfl, rfl⟩⟩

/-! ### Lemmas about the item dimension table -/

theorem mem_dimRowsOf {cats : List DimCategory} {it : Item} {d : DimItem}
    (h : d ∈ dimRowsOf cats it) :
    d.item_id = it.item_id ∧ d.price = it.price := by
  rw [dimRowsOf] at h
  cases hf : cats.filter (fun c =>
      decide (c.cat_level1 = it.category_main ∧
              c.cat_level2 = it.sub_category ∧
              c.cat_cost_center = it.cost_center)) with
  | nil =>
    rw [hf] at h
    rcases List.mem_singleton.mp h with rfl
    exact ⟨rfl, rfl⟩
  | cons c cs =>
    rw [hf] at h
    rcases List.mem_map.mp h with ⟨c', -, he⟩
    rw [← he]
    exact ⟨rfl, rfl⟩

theorem dimRowsOf_ne_nil (cats : List DimCategory) (it : Item) :
    dimRowsOf cats it ≠ [] := by
  rw [dimRowsOf]
  cases hf : cats.filter (fun c =>
      decide (c.cat_level1 = it.category_main ∧
              c.cat_level2 = it.sub_category ∧
              c.cat_cost_center = it.cost_center)) with
  | nil => simp
  | cons c cs => simp

theorem mem_buildDimItems {items : List Item} {cats : List DimCategory}
    {d : DimItem} (h : d ∈ buildDimItems items cats) :
    ∃ it ∈ items, d ∈ dimRowsOf cats it :=
  List.mem_flatMap.mp h

theorem buildDimItems_covers {items : List Item} {cats : List DimCategory}
    {it : Item} (hit : it ∈ items) :
    ∃ d ∈ buildDimItems items cats, d.item_id = it.item_id := by
  rcases List.exists_mem_of_ne_nil _ (dimRowsOf_ne_nil cats it) with ⟨d, hd⟩
  exact ⟨d, List.mem_flatMap.mpr ⟨it, hit, hd⟩, (mem_dimRowsOf hd).1⟩

theorem mem_dimRowsOf_cases {cats : List DimCategory} {it : Item}
    {d : DimItem} (h : d ∈ dimRowsOf cats it) :
    d = dimItemUnmatched it ∨ ∃ c ∈ cats, d = dimItemOfMatch it c := by
  rw [dimRowsOf] at h
  cases hf : cats.filter (fun c =>
      decide (c.cat_level1 = it.category_main ∧
              c.cat_level2 = it.sub_category ∧
              c.cat_cost_center = it.cost_center)) with
  | nil =>
    rw [hf] at h
    exact Or.inl (List.mem_singleton.mp h)
  | cons c cs =>
    rw [hf] at h
    have h' : d ∈ (c :: cs).map (fun c => dimItemOfMatch it c) := h
    rcases List.mem_map.mp h' with ⟨c', hc', he⟩
    rw [← hf] at hc'
    exact Or.inr ⟨c', (List.mem_filter.mp hc').1, he.symm⟩

theorem buildDimItems_price_pos {rows : List CleanRow}
    {cats : List DimCategory} {d : DimItem}
    (h : d ∈ buildDimItems (buildItems rows) cats) : 0 < d.price := by
  rcases mem_buildDimItems h with ⟨it, hit, hd⟩
  rw [(mem_dimRowsOf hd).2]
  exact buildItems_price_pos hit

/-! ### Lemmas about the final `fact_line_items` build -/

theorem mem_fliRowsOf {dis : List DimItem} {li : LineItem} {f : FactLineItem}
    (h : f ∈ fliRowsOf dis li) :
    (f = fliUnmatched li ∧
      (li.item_id = none ∨ ∃ i, li.item_id = some i ∧
        dis.filter (fun d => decide (d.item_id = i)) = [])) ∨
    ∃ d ∈ dis, f = fliMatched li d ∧ li.item_id = some d.item_id := by
  cases hii : li.item_id with
  | none =>
    have he : fliRowsOf dis li = [fliUnmatched li] := by rw [fliRowsOf, hii]
    rw [he] at h
    exact Or.inl ⟨List.mem_singleton.mp h, Or.inl rfl⟩
  | some i =>
    have he : fliRowsOf dis li
        = match dis.filter (fun d => decide (d.item_id = i)) with
          | [] => [fliUnmatched li]
          | ms => ms.map (fliMatched li) := by rw [fliRowsOf, hii]
    rw [he] at h
    cases hf : dis.filter (fun d => decide (d.item_id = i)) with
    | nil =>
      rw [hf] at h
      exact Or.inl ⟨List.mem_singleton.mp h, Or.inr ⟨i, rfl, hf⟩⟩
    | cons d0 ds =>
      rw [hf] at h
      have h' : f ∈ (d0 :: ds).map (fliMatched li) := h
      rcases List.mem_map.mp h' with ⟨d, hd, hee⟩
      rw [← hf] at hd
      have hmem := List.mem_filter.mp hd
      refine Or.inr ⟨d, hmem.1, hee.symm, ?_⟩
      rw [of_decide_eq_true hmem.2]

theorem fliRowsOf_txid {dis : List DimItem} {li : LineItem}
    {f : FactLineItem} (h : f ∈ fliRowsOf dis li) :
    f.transaction_id = li.transaction_id.getD 0 := by
  rcases mem_fliRowsOf h with ⟨he, -⟩ | ⟨d, -, he, -⟩ <;> rw [he] <;> rfl

theorem fliRowsOf_ne_nil (dis : List DimItem) (li : LineItem) :
    fliRowsOf dis li ≠ [] := by
  cases hii : li.item_id with
  | none =>
    have he : fliRowsOf dis li = [fliUnmatched li] := by rw [fliRowsOf, hii]
    rw [he]
    exact List.cons_ne_nil _ _
  | some i =>
    have he : fliRowsOf dis li
        = match dis.filter (fun d => decide (d.item_id = i)) with
          | [] => [fliUnmatched li]
          | ms => ms.map (fliMatched li) := by rw [fliRowsOf, hii]
    rw [he]
    cases hf : dis.filter (fun d => decide (d.item_id = i)) with
    | nil => exact List.cons_ne_nil _ _
    | cons d ds => exact List.cons_ne_nil _ _

theorem fliRowsOf_gross_sum {dis : List DimItem} {li : LineItem}
    (hlen : ∀ i : Int,
      (dis.filter (fun d => decide (d.item_id = i))).length ≤ 1) :
    ((fliRowsOf dis li).map (fun f => f.gross_revenue)).sum
      = li.gross_revenue := by
  cases hii : li.item_id with
  | none =>
    have he : fliRowsOf dis li = [fliUnmatched li] := by rw [fliRowsOf, hii]
    rw [he]
    simp [fliUnmatched]
  | some i =>
    have he : fliRowsOf dis li
        = match dis.filter (fun d => decide (d.item_id = i)) with
          | [] => [fliUnmatched li]
          | ms => ms.map (fliMatched li) := by rw [fliRowsOf, hii]
    rw [he]
    cases hf : dis.filter (fun d => decide (d.item_id = i)) with
    | nil =>
      show (([fliUnmatched li]).map (fun f => f.gross_revenue)).sum
        = li.gross_revenue
      simp [fliUnmatched]
    | cons d ds =>
      have hl := hlen i
      rw [hf] at hl
      have hds : ds = [] := by
        rw [List.length_cons] at hl
        exact List.eq_nil_of_length_eq_zero (by omega)
      subst hds
      show ((([d]).map (fliMatched li)).map (fun f => f.gross_revenue)).sum
        = li.gross_revenue
      simp [fliMatched]

theorem buildFactLineItems_gross_sum {lis : List LineItem}
    {dis : List DimItem}
    (hlen : ∀ i : Int,
      (dis.filter (fun d => decide (d.item_id = i))).length ≤ 1) :
    ((buildFactLineItems lis dis).map (fun f => f.gross_revenue)).sum
      = (lis.map (fun li => li.gross_revenue)).sum := by
  induction lis with
  | nil => rfl
  | cons li ls ih =>
    rw [buildFactLineItems, List.flatMap_cons, List.map_append,
      List.sum_append, List.map_cons, List.sum_cons,
      fliRowsOf_gross_sum hlen]
    rw [buildFactLineItems] at ih
    rw [ih]

theorem buildFactLineItems_filter_sum {lis : List LineItem}
    {dis : List DimItem}
    (hlen : ∀ i : Int,
      (dis.filter (fun d => decide (d.item_id = i))).length ≤ 1) (τ : Int) :
    (((buildFactLineItems lis dis).filter
        (fun f => decide (f.transaction_id = τ))).map
        (fun f => f.gross_revenue)).sum
      = ((lis.filter (fun li => decide (li.transaction_id.getD 0 = τ))).map
          (fun li => li.gross_revenue)).sum := by
  induction lis with
  | nil => rfl
  | cons li ls ih =>
    rw [buildFactLineItems, List.flatMap_cons, List.filter_append,
      List.map_append, List.sum_append]
    rw [buildFactLineItems] at ih
    rw [ih]
    by_cases hτ : li.transaction_id.getD 0 = τ
    · have hkeep : (fliRowsOf dis li).filter
          (fun f => decide (f.transaction_id = τ)) = fliRowsOf dis li := by
        rw [List.filter_eq_self]
        intro f hf
        rw [fliRowsOf_txid hf, hτ]
        simp
      rw [hkeep, fliRowsOf_gross_sum hlen, List.filter_cons_of_pos
        (by simp [hτ]), List.map_cons, List.sum_cons]
    · have hdrop : (fliRowsOf dis li).filter
          (fun f => decide (f.transaction_id = τ)) = [] := by
        rw [List.filter_eq_nil_iff]
        intro f hf
        rw [fliRowsOf_txid hf]
        simp [hτ]
      rw [hdrop, List.filter_cons_of_neg (by simp [hτ])]
      simp

/-! ### Uniqueness of the dimension join keys -/

theorem buildDimCategories_joinKey (refs : List CatRef) :
    (buildDimCategories refs).map dimCatJoinKey = refs.map refJoinKey := by
  rw [buildDimCategories, List.map_map]
  rfl

theorem dimRowsOf_filter_eq (cats : List DimCategory) (it : Item) :
    cats.filter (fun c =>
      decide (c.cat_level1 = it.category_main ∧
              c.cat_level2 = it.sub_category ∧
              c.cat_cost_center = it.cost_center))
      = cats.filter (fun c => decide (dimCatJoinKey c
          = (it.category_main, it.sub_category, it.cost_center))) := by
  apply List.filter_congr
  intro c _
  apply decide_eq_decide.mpr
  constructor
  · rintro ⟨h1, h2, h3⟩
    rw [dimCatJoinKey, h1, h2, h3]
  · intro h
    rw [dimCatJoinKey, Prod.mk.injEq, Prod.mk.injEq] at h
    exact ⟨h.1, h.2.1, h.2.2⟩

theorem dimRowsOf_singleton {cats : List DimCategory} {it : Item}
    (h : (cats.map dimCatJoinKey).Nodup) :
    ∃ d, dimRowsOf cats it = [d] ∧ d.item_id = it.item_id := by
  have hle := filter_length_le_one_of_nodup_map h
    (it.category_main, it.sub_category, it.cost_center)
  rw [← dimRowsOf_filter_eq] at hle
  rw [dimRowsOf]
  cases hf : cats.filter (fun c =>
      decide (c.cat_level1 = it.category_main ∧
              c.cat_level2 = it.sub_category ∧
              c.cat_cost_center = it.cost_center)) with
  | nil => exact ⟨dimItemUnmatched it, rfl, rfl⟩
  | cons c cs =>
    rw [hf] at hle
    have hcs : cs = [] := by
      rw [List.length_cons] at hle
      exact List.eq_nil_of_length_eq_zero (by omega)
    subst hcs
    exact ⟨dimItemOfMatch it c, rfl, rfl⟩

theorem buildDimItems_map_id {items : List Item} {cats : List DimCategory}
    (h : (cats.map dimCatJoinKey).Nodup) :
    (buildDimItems items cats).map (fun d => d.item_id)
      = items.map (fun it => it.item_id) := by
  induction items with
  | nil => rfl
  | cons it its ih =>
    rw [buildDimItems, List.flatMap_cons, List.map_append]
    obtain ⟨d, hd, hid⟩ := @dimRowsOf_singleton cats it h
    rw [hd]
    rw [buildDimItems] at ih
    rw [ih]
    simp [hid]

theorem dimItems_filter_len {items : List Item} {cats : List DimCategory}
    (hids : (items.map (fun it => it.item_id)).Nodup)
    (h : (cats.map dimCatJoinKey).Nodup) (i : Int) :
    ((buildDimItems items cats).filter
      (fun d => decide (d.item_id = i))).length ≤ 1 := by
  have hnd : ((buildDimItems items cats).map
      (fun d : DimItem => d.item_id)).Nodup := by
    rw [buildDimItems_map_id h]
    exact hids
  exact filter_length_le_one_of_nodup_map hnd i

theorem buildLineItems_filter_sum (rows : List CleanRow) (items : List Item)
    (txs : List FactTransaction) (τ : Int) :
    (((buildLineItems rows items txs).filter
        (fun li => decide (li.transaction_id.getD 0 = τ))).map
        (fun li => li.gross_revenue)).sum
      = ((rows.filter (fun r => decide (txidOf txs r = τ))).map
          (fun r => r.gross_revenue)).sum := by
  rw [buildLineItems]
  have main : ∀ (rs : List CleanRow) (n : Int),
      ((((numberFrom n rs).map (lineItemOf items txs)).filter
        (fun li => decide (li.transaction_id.getD 0 = τ))).map
        (fun li => li.gross_revenue)).sum
      = ((rs.filter (fun r => decide (txidOf txs r = τ))).map
          (fun r => r.gross_revenue)).sum := by
    intro rs
    induction rs with
    | nil => intro n; rfl
    | cons r rs' ih =>
      intro n
      rw [show numberFrom n (r :: rs') = (n, r) :: numberFrom (n + 1) rs'
        from rfl, List.map_cons]
      have htx : (lineItemOf items txs (n, r)).transaction_id.getD 0
          = txidOf txs r := rfl
      by_cases hτ : txidOf txs r = τ
      · rw [List.filter_cons_of_pos (by rw [htx]; simp [hτ]),
          List.filter_cons_of_pos (by simp [hτ]), List.map_cons,
          List.sum_cons, List.map_cons, List.sum_cons, ih (n + 1)]
        rfl
      · rw [List.filter_cons_of_neg (by rw [htx]; simp [hτ]),
          List.filter_cons_of_neg (by simp [hτ]), ih (n + 1)]
  exact main rows 1

/-! ### Claim theorems -/

/-- C9: for every input and every possible response of the external
text-generation service — well-formed text, malformed text, or a raised
exception — `NutriScoreEstimator.estimate_score` returns exactly one of the
five letters A–E, returning the default `"C"` on any malformed/unparseable
response or call failure; being a total function of the response, it never
propagates an error to its caller. -/
theorem C9_estimate_score_contract :
    ∀ resp : NutriScore.ServiceResponse,
      NutriScore.estimate_score resp ∈ NutriScore.validScores ∧
      (∀ msg, resp = NutriScore.ServiceResponse.failure msg →
        NutriScore.estimate_score resp = "C") ∧
      (∀ t, resp = NutriScore.ServiceResponse.ok t →
        pyUpper (pyStrip t) ∉ NutriScore.validScores →
        NutriScore.estimate_score resp = "C") := by
  intro resp
  refine ⟨?_, ?_, ?_⟩
  · cases resp with
    | ok t =>
      simp only [NutriScore.estimate_score]
      by_cases hs : pyUpper (pyStrip t) ∈ NutriScore.validScores
      · rw [if_pos hs]; exact hs
      · rw [if_neg hs]; decide
    | failure msg =>
      simp only [NutriScore.estimate_score]
      decide
  · intro msg hmsg
    subst hmsg
    rfl
  · intro t ht hnot
    subst ht
    simp only [NutriScore.estimate_score]
    rw [if_neg hnot]

/-- Witness for C9 at three concrete responses: a valid (unstripped,
lower-case) grade, a raised exception, and malformed text. -/
theorem C9_witness :
    NutriScore.estimate_score (NutriScore.ServiceResponse.ok " b ")
        ∈ NutriScore.validScores ∧
      NutriScore.estimate_score
        (NutriScore.ServiceResponse.failure "rate limit") = "C" ∧
      NutriScore.estimate_score
        (NutriScore.ServiceResponse.ok "Grade: B") = "C" :=
  ⟨(C9_estimate_score_contract (NutriScore.ServiceResponse.ok " b ")).1,
   (C9_estimate_score_contract
     (NutriScore.ServiceResponse.failure "rate limit")).2.1 "rate limit" rfl,
   (C9_estimate_score_contract
     (NutriScore.ServiceResponse.ok "Grade: B")).2.2 "Grade: B" rfl
     (by decide)⟩

/-- C7: every `dim_categories` row derives `margin` from `margin_group` via
the fixed mapping Beverage ↦ 0.6, Food ↦ 0.4, Snacks ↦ 0.3 and null for
anything else; every `dim_items` row matched to a category with a derived
margin has `est_cost = price * (1 - margin)`; and the scenario - an item
priced 10.00 in a Food-margin category - yields `margin = 0.4` and
`est_cost = 6.00` through the full pipeline. -/
theorem C7_margin_mapping :
    (∀ refs : List CatRef, ∀ c ∈ buildDimCategories refs,
      (c.margin_group = "Beverage" → c.margin = some (6 / 10)) ∧
      (c.margin_group = "Food" → c.margin = some (4 / 10)) ∧
      (c.margin_group = "Snacks" → c.margin = some (3 / 10)) ∧
      (c.margin_group ≠ "Beverage" → c.margin_group ≠ "Food" →
        c.margin_group ≠ "Snacks" → c.margin = none)) ∧
    (∀ (items : List Item) (cats : List DimCategory),
      ∀ d ∈ buildDimItems items cats,
        d.margin ≠ 0 → d.est_cost = d.price * (1 - d.margin)) ∧
    (dimItems [icedTeaTenRaw] [coldDrinksRef]).map
        (fun d => (d.price, d.margin, d.est_cost))
      = [((10 : ℚ), (2 / 5 : ℚ), (6 : ℚ))] := by
  refine ⟨?_, ?_, by decide⟩
  · intro refs c hc
    rcases List.mem_map.mp hc with ⟨c₀, -, he⟩
    subst he
    refine ⟨fun h => ?_, fun h => ?_, fun h => ?_, fun h1 h2 h3 => ?_⟩
    · show marginMap c₀.margin_group = some (6 / 10)
      have hg : c₀.margin_group = "Beverage" := h
      rw [marginMap, hg]
      simp
    · show marginMap c₀.margin_group = some (4 / 10)
      have hg : c₀.margin_group = "Food" := h
      rw [marginMap, hg]
      simp
    · show marginMap c₀.margin_group = some (3 / 10)
      have hg : c₀.margin_group = "Snacks" := h
      rw [marginMap, hg]
      simp
    · show marginMap c₀.margin_group = none
      have hg1 : c₀.margin_group ≠ "Beverage" := h1
      have hg2 : c₀.margin_group ≠ "Food" := h2
      have hg3 : c₀.margin_group ≠ "Snacks" := h3
      rw [marginMap]
      simp [hg1, hg2, hg3]
  · intro items cats d hd hm
    rcases mem_buildDimItems hd with ⟨it, -, hdr⟩
    rcases mem_dimRowsOf_cases hdr with he | ⟨c, -, he⟩
    · rw [he] at hm
      exact absurd rfl hm
    · rw [he] at hm ⊢
      cases hcm : c.margin with
      | none =>
        refine absurd ?_ hm
        show c.margin.getD 0 = 0
        rw [hcm]
        rfl
      | some m =>
        have he1 : (dimItemOfMatch it c).est_cost
            = match c.margin with
              | some m' => it.price * (1 - m')
              | none => 0 := rfl
        have he2 : (dimItemOfMatch it c).margin = m := by
          show c.margin.getD 0 = m
          rw [hcm]
          rfl
        rw [he1, hcm, he2]
        rfl

/-- Witness for C7: the mapping and cost equations applied at the concrete
Food-margin reference row and the concrete pipeline-produced item. -/
theorem C7_witness :
    ({ cat_level1 := "Drinks", cat_level2 := "Cold",
       cat_cost_center := "Cafe", margin_group := "Food", category_id := 7,
       margin := some (4 / 10) } : DimCategory).margin = some (4 / 10) ∧
    ({ item_id := 1, item_name := "Iced Tea", group := "Beverages",
       category := "Drinks", sub_category := "Cold", price := 10,
       item_cost_center := "Cafe", margin := 2 / 5, est_cost := 6,
       category_id := 7 } : DimItem).est_cost
      = ({ item_id := 1, item_name := "Iced Tea", group := "Beverages",
           category := "Drinks", sub_category := "Cold", price := 10,
           item_cost_center := "Cafe", margin := 2 / 5, est_cost := 6,
           category_id := 7 } : DimItem).price
        * (1 - ({ item_id := 1, item_name := "Iced Tea",
                  group := "Beverages", category := "Drinks",
                  sub_category := "Cold", price := 10,
                  item_cost_center := "Cafe", margin := 2 / 5, est_cost := 6,
                  category_id := 7 } : DimItem).margin) :=
  ⟨((C7_margin_mapping.1 [coldDrinksRef] _ (by decide)).2.1 rfl),
   (C7_margin_mapping.2.1 (buildItems (runClean [icedTeaTenRaw]))
     (buildDimCategories [coldDrinksRef]) _ (by decide) (by decide))⟩

/-- C10: every row of `dim_items` has a strictly positive price, because
`mode_price` filters to `gross_revenue > 0` before grouping; an item key all
of whose deduplicated rows have non-positive revenue is omitted from the
item dimension entirely, so the line items carrying that key resolve no
`item_id` (the merge leaves the key null). -/
theorem C10_dim_prices_positive :
    ∀ (raws : List RawRow) (refs : List CatRef),
      (∀ d ∈ dimItems raws refs, 0 < d.price) ∧
      (∀ k : ItemKey,
        (∀ r ∈ runClean raws, itemKey r = k → r.gross_revenue ≤ 0) →
        (buildItems (runClean raws)).find?
            (fun it => decide (itemKeyI it = k)) = none ∧
          ∀ p : Int × CleanRow, itemKey p.2 = k →
            (lineItemOf (buildItems (runClean raws)) (factTransactions raws)
              p).item_id = none) := by
  intro raws refs
  constructor
  · intro d hd
    exact buildDimItems_price_pos hd
  · intro k hk
    have hfind := buildItems_find?_eq_none hk
    refine ⟨hfind, ?_⟩
    intro p hp
    show ((buildItems (runClean raws)).find?
        (fun it => decide (itemKeyI it = itemKey p.2))).map
        (fun it => it.item_id) = none
    rw [hp, hfind]
    rfl

/-- Witness for C10 on the single zero-revenue row: its item key finds no
`dim_items` entry and its line item's `item_id` is null before the final
`fillna`. -/
theorem C10_witness :
    (buildItems (runClean [zeroRevRaw])).find?
        (fun it => decide (itemKeyI it
          = { item_name := "Water", group := "Water",
              category_main := "Drinks", sub_category := "Drinks",
              cost_center := "Cafe" })) = none ∧
      (lineItemOf (buildItems (runClean [zeroRevRaw]))
        (factTransactions [zeroRevRaw])
        (1, { check_id := 5, item_name := "Water", group := "Water",
              category := "Drinks", category_main := "Drinks",
              sub_category := "Drinks", cost_center := "Cafe",
              gross_revenue := 0, timestamp := "2024-01-01 12:00:00",
              day_part := "Lunch", is_beverage := false })).item_id
        = none := by
  have h := (C10_dim_prices_positive [zeroRevRaw] []).2
    { item_name := "Water", group := "Water", category_main := "Drinks",
      sub_category := "Drinks", cost_center := "Cafe" } (by decide)
  exact ⟨h.1, h.2 _ (by decide)⟩

/-- Given a decomposition of `s` at the leftmost separator occurrence,
`splitOnFirst` returns exactly that decomposition. -/
theorem split_first_unique {sep : List Char} (hsep : sep ≠ [])
    {s l r : List Char} (hdec : s = l ++ sep ++ r)
    (hmin : ∀ l' r', s = l' ++ sep ++ r' → l.length ≤ l'.length) :
    splitOnFirst sep s = some (l, r) := by
  cases hsp : splitOnFirst sep s with
  | none => exact absurd hdec (splitOnFirst_none_spec hsep hsp l r)
  | some p =>
    rcases p with ⟨l₀, r₀⟩
    obtain ⟨hdec₀, hmin₀⟩ := splitOnFirst_some_spec hsp
    have hlen : l₀.length = l.length :=
      le_antisymm (hmin₀ l r hdec) (hmin l₀ r₀ hdec₀)
    have heq : l ++ (sep ++ r) = l₀ ++ (sep ++ r₀) := by
      rw [← List.append_assoc, ← List.append_assoc, ← hdec, ← hdec₀]
    obtain ⟨h1, h2⟩ := List.append_inj heq hlen.symm
    have h3 := List.append_cancel_left h2
    rw [h1, h3]

/-- C8: `splitGroupItem` splits `item_name` at the first occurrence of
`" - "` into the left part (`group`) and the right part (cleaned
`item_name`), both equal to the whole string when the separator is absent;
`splitCategory` splits `category` at the first `'>'` into stripped
`category_main` / `sub_category`, both equal to the stripped whole string
when absent; and the spec's scenario row comes out of the cleaning stage
with `group="Beverages"`, `item_name="Iced Tea"`, `category_main="Drinks"`,
`sub_category="Cold"`. -/
theorem C8_name_and_category_splits :
    (∀ (s : String) (l r : List Char),
      s.data = l ++ " - ".data ++ r →
      (∀ l' r', s.data = l' ++ " - ".data ++ r' → l.length ≤ l'.length) →
      splitGroupItem s = (String.mk l, String.mk r)) ∧
    (∀ s : String, (∀ l r, s.data ≠ l ++ " - ".data ++ r) →
      splitGroupItem s = (s, s)) ∧
    (∀ (s : String) (l r : List Char),
      s.data = l ++ ['>'] ++ r →
      (∀ l' r', s.data = l' ++ ['>'] ++ r' → l.length ≤ l'.length) →
      splitCategory s = (pyStrip (String.mk l), pyStrip (String.mk r))) ∧
    (∀ s : String, (∀ l r, s.data ≠ l ++ ['>'] ++ r) →
      splitCategory s = (pyStrip s, pyStrip s)) ∧
    (runClean [scenarioRaw]).map
        (fun r => (r.group, r.item_name, r.category_main, r.sub_category))
      = [("Beverages", "Iced Tea", "Drinks", "Cold")] := by
  refine ⟨?_, ?_, ?_, ?_, by decide⟩
  · intro s l r hdec hmin
    rw [splitGroupItem, split_first_unique (by decide) hdec hmin]
  · intro s hno
    cases hsp : splitOnFirst " - ".data s.data with
    | none => rw [splitGroupItem, hsp]
    | some p =>
      rcases p with ⟨l, r⟩
      exact absurd (splitOnFirst_some_spec hsp).1 (hno l r)
  · intro s l r hdec hmin
    rw [splitCategory, split_first_unique (by decide) hdec hmin]
  · intro s hno
    cases hsp : splitOnFirst ['>'] s.data with
    | none => rw [splitCategory, hsp]
    | some p =>
      rcases p with ⟨l, r⟩
      exact absurd (splitOnFirst_some_spec hsp).1 (hno l r)

/-- Witness for C8 at the scenario strings. -/
theorem C8_witness :
    splitGroupItem "Beverages - Iced Tea" = ("Beverages", "Iced Tea") ∧
      splitCategory "Drinks>Cold" = ("Drinks", "Cold") := by
  have h1 : splitOnFirst " - ".data ("Beverages - Iced Tea").data
      = some ("Beverages".data, "Iced Tea".data) := by decide
  have h2 : splitOnFirst ['>'] ("Drinks>Cold").data
      = some ("Drinks".data, "Cold".data) := by decide
  obtain ⟨hdec1, hmin1⟩ := splitOnFirst_some_spec h1
  obtain ⟨hdec2, hmin2⟩ := splitOnFirst_some_spec h2
  constructor
  · exact C8_name_and_category_splits.1 _ _ _ hdec1 hmin1
  · rw [C8_name_and_category_splits.2.2.1 _ _ _ hdec2 hmin2]
    decide

/-- C1 (amended): every final `fact_line_items` row's `transaction_id`
resolves to a `fact_transactions` row, but a row whose item key fails to
resolve is retained with the `fillna` default `item_id = 0` — which is never
a real `dim_items` key, those being ≥ 1 — instead of being excluded and
counted as the claim states; no row is ever dropped (the final table has at
least one row per deduplicated row). -/
theorem C1_foreign_keys_amended :
    ∀ (raws : List RawRow) (refs : List CatRef),
      (∀ f ∈ factLineItems raws refs,
        (∃ t ∈ factTransactions raws,
          f.transaction_id = t.transaction_id) ∧
        (f.item_id = 0 ∨ ∃ d ∈ dimItems raws refs,
          f.item_id = d.item_id)) ∧
      (∀ d ∈ dimItems raws refs, 1 ≤ d.item_id) ∧
      (runClean raws).length ≤ (factLineItems raws refs).length := by
  intro raws refs
  refine ⟨?_, ?_, ?_⟩
  · intro f hf
    rcases List.mem_flatMap.mp hf with ⟨li, hli, hfr⟩
    rcases mem_buildLineItems hli with ⟨r, hr, htx, hit, -⟩
    constructor
    · obtain ⟨t', ht', htc⟩ := buildTransactions_exists hr
      have hiss : ((factTransactions raws).find?
          (fun t => decide (t.check_id = r.check_id))).isSome :=
        List.find?_isSome.mpr ⟨t', ht', by simp [htc]⟩
      obtain ⟨t₀, ht₀⟩ := Option.isSome_iff_exists.mp hiss
      refine ⟨t₀, List.mem_of_find?_eq_some ht₀, ?_⟩
      rw [fliRowsOf_txid hfr, htx, ht₀]
      rfl
    · cases hio : li.item_id with
      | none =>
        rcases mem_fliRowsOf hfr with ⟨he, -⟩ | ⟨d, -, -, hsome⟩
        · left
          rw [he]
          show li.item_id.getD 0 = 0
          rw [hio]
          rfl
        · rw [hio] at hsome
          exact Option.noConfusion hsome
      | some i =>
        rw [hio] at hit
        rcases Option.map_eq_some'.mp hit.symm with ⟨it₀, hfind, hid⟩
        have hit0mem : it₀ ∈ buildItems (runClean raws) :=
          List.mem_of_find?_eq_some hfind
        obtain ⟨d₀, hd₀, hd₀id⟩ :=
          @buildDimItems_covers (buildItems (runClean raws))
            (buildDimCategories refs) it₀ hit0mem
        rcases mem_fliRowsOf hfr with ⟨-, hcase⟩ | ⟨d, hd, he, hsome⟩
        · rcases hcase with hnone | ⟨i', hsome', hnil⟩
          · rw [hio] at hnone
            exact Option.noConfusion hnone
          · rw [hio, Option.some.injEq] at hsome'
            subst hsome'
            have hmem : d₀ ∈ (dimItems raws refs).filter
                (fun d => decide (d.item_id = i)) :=
              List.mem_filter.mpr ⟨hd₀, by simp [hd₀id, hid]⟩
            rw [hnil] at hmem
            cases hmem
        · right
          refine ⟨d, hd, ?_⟩
          rw [he]
          show li.item_id.getD 0 = d.item_id
          rw [hsome]
          rfl
  · intro d hd
    rcases mem_buildDimItems hd with ⟨it, hit, hdr⟩
    rw [(mem_dimRowsOf hdr).1]
    exact (mem_buildItems hit).1
  · have h1 : (runClean raws).length
        = (buildLineItems (runClean raws) (buildItems (runClean raws))
            (factTransactions raws)).length := by
      rw [buildLineItems, List.length_map, numberFrom_length]
    rw [h1]
    exact flatMap_length_ge (fun li _ => fliRowsOf_ne_nil _ li)

/-- Counterexample to C1 as stated: running the pipeline on a single row
with `gross_revenue = 0` leaves `dim_items` empty (so the row's item key
cannot resolve), yet the final `fact_line_items` retains the row with the
fabricated default foreign key `item_id = 0` instead of excluding it. -/
theorem C1_counterexample :
    factLineItems [zeroRevRaw] []
      = [{ line_item_id := 1, transaction_id := 1, item_id := 0,
           gross_revenue := 0, margin := 0, price := none, est_cost := 0,
           est_profit := 0, quantity := 0 }] ∧
    dimItems [zeroRevRaw] [] = [] := by decide

/-- Witness for C1 (amended) on a one-row run with a resolvable item. -/
theorem C1_witness :
    ∃ t ∈ factTransactions [teaRaw],
      ({ line_item_id := 1, transaction_id := 1, item_id := 1,
         gross_revenue := 10, margin := 0, price := some 10, est_cost := 10,
         est_profit := 0, quantity := 1 } : FactLineItem).transaction_id
        = t.transaction_id :=
  ((C1_foreign_keys_amended [teaRaw] []).1 _ (by decide)).1

/-- C2 (amended): for every final `fact_line_items` row, when the item
resolved (`price = some p`) the price is strictly positive and
`quantity = round(gross_revenue / p)` with half-to-even rounding — which is
negative when `gross_revenue` is negative, so `quantity ≥ 0` does not hold
in general; when the item is unresolved (`price` null) the `fillna(0)` of
line 279 makes `quantity = 0`, not the claimed default `1` (the
`quantity: 1` entry of the line-289 `fillna` is dead code). -/
theorem C2_quantity_amended :
    ∀ (raws : List RawRow) (refs : List CatRef),
      ∀ f ∈ factLineItems raws refs,
        (f.price = none → f.quantity = 0) ∧
        (∀ p, f.price = some p →
          0 < p ∧ f.quantity = roundHalfEven (f.gross_revenue / p)) := by
  intro raws refs f hf
  rcases List.mem_flatMap.mp hf with ⟨li, hli, hfr⟩
  rcases mem_fliRowsOf hfr with ⟨he, -⟩ | ⟨d, hd, he, -⟩
  · rw [he]
    exact ⟨fun _ => rfl, fun p hp => Option.noConfusion hp⟩
  · rw [he]
    refine ⟨fun hn => Option.noConfusion hn, fun p hp => ?_⟩
    have hpd : d.price = p := by injection hp
    subst hpd
    exact ⟨buildDimItems_price_pos hd, rfl⟩

/-- Counterexample to C2 as stated: an unresolved item yields
`quantity = 0`, not the claimed `1`; and a resolved negative-revenue line
(−15 at price 10) yields `quantity = −2 < 0`. -/
theorem C2_counterexample :
    (factLineItems [zeroRevRaw] []).map (fun f => (f.price, f.quantity))
      = [(none, 0)] ∧
    (factLineItems [teaRaw, teaRefundRaw] []).map (fun f => f.quantity)
      = [1, -2] := by decide

/-- Witness for C2 (amended) at the resolved 10-revenue row of a
one-row run. -/
theorem C2_witness :
    0 < (10 : ℚ) ∧
      ({ line_item_id := 1, transaction_id := 1, item_id := 1,
         gross_revenue := 10, margin := 0, price := some 10, est_cost := 10,
         est_profit := 0, quantity := 1 } : FactLineItem).quantity
        = roundHalfEven
            (({ line_item_id := 1, transaction_id := 1, item_id := 1,
                gross_revenue := 10, margin := 0, price := some 10,
                est_cost := 10, est_profit := 0,
                quantity := 1 } : FactLineItem).gross_revenue / 10) :=
  (C2_quantity_amended [teaRaw] [] _ (by decide)).2 10 rfl

/-- C3 (amended): provided the category reference table has no duplicate
`(cat_level1, cat_level2, cat_cost_center)` join keys — the pandas left
merges duplicate rows otherwise — the sum of `total_amount` over
`fact_transactions` equals the sum of `gross_revenue` over
`fact_line_items`, and each transaction's `total_amount` equals the sum of
`gross_revenue` over the line items carrying its `transaction_id`. -/
theorem C3_revenue_conservation_amended :
    ∀ (raws : List RawRow) (refs : List CatRef),
      (refs.map refJoinKey).Nodup →
      ((factTransactions raws).map (fun t => t.total_amount)).sum
        = ((factLineItems raws refs).map (fun f => f.gross_revenue)).sum ∧
      ∀ t ∈ factTransactions raws,
        t.total_amount
          = (((factLineItems raws refs).filter
              (fun f => decide (f.transaction_id = t.transaction_id))).map
              (fun f => f.gross_revenue)).sum := by
  intro raws refs hnd
  have hcat : ((buildDimCategories refs).map dimCatJoinKey).Nodup := by
    rw [buildDimCategories_joinKey]
    exact hnd
  have hlen : ∀ i : Int,
      ((dimItems raws refs).filter
        (fun d => decide (d.item_id = i))).length ≤ 1 :=
    fun i => dimItems_filter_len (buildItems_id_nodup _) hcat i
  have hfl : factLineItems raws refs
      = buildFactLineItems
          (buildLineItems (runClean raws) (buildItems (runClean raws))
            (factTransactions raws)) (dimItems raws refs) := rfl
  have hft : factTransactions raws = buildTransactions (runClean raws) := rfl
  constructor
  · rw [hfl, buildFactLineItems_gross_sum hlen, buildLineItems_gross, hft,
      buildTransactions_total_sum]
  · intro t ht
    rw [hfl, buildFactLineItems_filter_sum hlen, buildLineItems_filter_sum]
    have hcong : ∀ r ∈ runClean raws,
        decide (txidOf (factTransactions raws) r = t.transaction_id)
          = decide (r.check_id = t.check_id) := by
      intro r hr
      obtain ⟨t', ht', htc⟩ := buildTransactions_exists hr
      have hiss : ((factTransactions raws).find?
          (fun t => decide (t.check_id = r.check_id))).isSome :=
        List.find?_isSome.mpr ⟨t', ht', by simp [htc]⟩
      obtain ⟨t₀, ht₀⟩ := Option.isSome_iff_exists.mp hiss
      have ht₀mem : t₀ ∈ factTransactions raws :=
        List.mem_of_find?_eq_some ht₀
      have hpt := List.find?_some ht₀
      have ht₀c : t₀.check_id = r.check_id := of_decide_eq_true hpt
      have htid : txidOf (factTransactions raws) r = t₀.transaction_id := by
        rw [txidOf, ht₀]
        rfl
      apply decide_eq_decide.mpr
      constructor
      · intro hτ
        rw [htid] at hτ
        have hte : t₀ = t := nodup_map_eq
          (buildTransactions_id_nodup (runClean raws)) t₀ ht₀mem t ht hτ
        rw [← hte]
        exact ht₀c.symm
      · intro hc
        have hte : t₀ = t := nodup_map_eq
          (buildTransactions_check_nodup (runClean raws)) t₀ ht₀mem t ht
          (by rw [ht₀c, hc])
        rw [htid, hte]
    rw [List.filter_congr hcong]
    exact (mem_buildTransactions ht).2.2

/-- Counterexample to C3 as stated: two reference rows sharing the join key
`("Drinks", "Drinks", "Cafe")` (with different margin groups) duplicate the
matching line item in the final table, so total transaction revenue (10) no
longer equals total line-item revenue (20). -/
theorem C3_counterexample :
    ((factTransactions [teaRaw]).map (fun t => t.total_amount)).sum = 10 ∧
    ((factLineItems [teaRaw] [dupFoodRef, dupBevRef]).map
        (fun f => f.gross_revenue)).sum = 20 ∧
    ((factTransactions [teaRaw]).map (fun t => t.total_amount)).sum
      ≠ ((factLineItems [teaRaw] [dupFoodRef, dupBevRef]).map
          (fun f => f.gross_revenue)).sum := by
  exact ⟨by decide, by decide, by decide⟩

/-- Witness for C3 (amended) on a one-row run against a duplicate-free
reference table. -/
theorem C3_witness :
    ((factTransactions [teaRaw]).map (fun t => t.total_amount)).sum
      = ((factLineItems [teaRaw] [dupFoodRef]).map
          (fun f => f.gross_revenue)).sum :=
  (C3_revenue_conservation_amended [teaRaw] [dupFoodRef] (by decide)).1

/-- C4 (amended): for every dedup identity group the deduplicator retains
exactly one row (the output has one row per group); its `gross_revenue` is
the group maximum; its `category` and `day_part` are each a maximally
frequent value of the group — specifically the least such value in
ascending order, because pandas `mode()` returns the tied values sorted,
not the first-encountered value the claim states; and its `group` field is
the first-encountered value. -/
theorem C4_dedup_aggregation_amended :
    (∀ (rows : List Row1) (k : DedupKey) (g : List Row1),
      (k, g) ∈ groupRows dedupKeyLE dedupKey rows →
      ∃ d ∈ dedupe rows,
        d.check_id = k.check_id ∧ d.item_name = k.item_name ∧
        d.date = k.date ∧ d.sale_time_exact = k.sale_time_exact ∧
        d.is_beverage_on_check = k.is_beverage_on_check ∧
        d.cost_center = k.cost_center ∧
        (d.gross_revenue ∈ g.map (fun r => r.gross_revenue) ∧
          ∀ r ∈ g, r.gross_revenue ≤ d.gross_revenue) ∧
        (d.category ∈ g.map (fun r => r.category) ∧
          occCount d.category (g.map (fun r => r.category))
            = maxCount (g.map (fun r => r.category)) ∧
          ∀ c ∈ g.map (fun r => r.category),
            occCount c (g.map (fun r => r.category))
              = maxCount (g.map (fun r => r.category)) → d.category ≤ c) ∧
        (d.day_part ∈ g.map (fun r => r.day_part) ∧
          occCount d.day_part (g.map (fun r => r.day_part))
            = maxCount (g.map (fun r => r.day_part)) ∧
          ∀ c ∈ g.map (fun r => r.day_part),
            occCount c (g.map (fun r => r.day_part))
              = maxCount (g.map (fun r => r.day_part)) → d.day_part ≤ c) ∧
        (∃ h0, g.head? = some h0 ∧ d.group = h0.group)) ∧
    (∀ rows : List Row1,
      (dedupe rows).length
        = (groupRows dedupKeyLE dedupKey rows).length) := by
  constructor
  · intro rows k g hp
    obtain ⟨d, hd, h1, h2, h3, h4, h5, h6, hrev, hcat, hdp, hhead⟩ :=
      dedupe_of_group hp
    have hne := groupRows_ne_nil hp
    obtain ⟨hrevm, hrevle⟩ := aggMax_spec hrev
    obtain ⟨hcm, hcc, hcmin⟩ := modeOrFirst_linear_spec strLE_iff
      (map_ne_nil _ hne) hcat
    obtain ⟨hdm, hdc, hdmin⟩ := modeOrFirst_linear_spec strLE_iff
      (map_ne_nil _ hne) hdp
    refine ⟨d, hd, h1, h2, h3, h4, h5, h6, ⟨hrevm, ?_⟩, ⟨hcm, hcc, hcmin⟩,
      ⟨hdm, hdc, hdmin⟩, hhead⟩
    intro r hr
    exact hrevle _ (List.mem_map.mpr ⟨r, hr, rfl⟩)
  · exact dedupe_length

/-- Counterexample to C4 as stated: two rows of one dedup identity group
carry `day_part` values `"Lunch"` (first in row order) and `"Breakfast"`;
the mode is tied, and the deduplicator retains `"Breakfast"` — the
lexicographically least tied value — not the first-encountered `"Lunch"`
the claim requires. -/
theorem C4_counterexample :
    dedupKey (splitNames soupLunchRaw)
        = dedupKey (splitNames soupBreakfastRaw) ∧
    soupLunchRaw.day_part = "Lunch" ∧
    soupBreakfastRaw.day_part = "Breakfast" ∧
    (dedupe ([soupLunchRaw, soupBreakfastRaw].map splitNames)).map
        (fun d => d.day_part) = ["Breakfast"] := by decide

/-- Witness for C4 (amended) on a one-row, one-group input. -/
theorem C4_witness :
    ∃ d ∈ dedupe [splitNames soupLunchRaw],
      d.check_id = (dedupKey (splitNames soupLunchRaw)).check_id ∧
      d.item_name = (dedupKey (splitNames soupLunchRaw)).item_name ∧
      d.date = (dedupKey (splitNames soupLunchRaw)).date ∧
      d.sale_time_exact
        = (dedupKey (splitNames soupLunchRaw)).sale_time_exact ∧
      d.is_beverage_on_check
        = (dedupKey (splitNames soupLunchRaw)).is_beverage_on_check ∧
      d.cost_center = (dedupKey (splitNames soupLunchRaw)).cost_center ∧
      (d.gross_revenue
          ∈ [splitNames soupLunchRaw].map (fun r => r.gross_revenue) ∧
        ∀ r ∈ [splitNames soupLunchRaw],
          r.gross_revenue ≤ d.gross_revenue) ∧
      (d.category ∈ [splitNames soupLunchRaw].map (fun r => r.category) ∧
        occCount d.category
            ([splitNames soupLunchRaw].map (fun r => r.category))
          = maxCount ([splitNames soupLunchRaw].map (fun r => r.category)) ∧
        ∀ c ∈ [splitNames soupLunchRaw].map (fun r => r.category),
          occCount c ([splitNames soupLunchRaw].map (fun r => r.category))
              = maxCount
                  ([splitNames soupLunchRaw].map (fun r => r.category)) →
            d.category ≤ c) ∧
      (d.day_part ∈ [splitNames soupLunchRaw].map (fun r => r.day_part) ∧
        occCount d.day_part
            ([splitNames soupLunchRaw].map (fun r => r.day_part))
          = maxCount ([splitNames soupLunchRaw].map (fun r => r.day_part)) ∧
        ∀ c ∈ [splitNames soupLunchRaw].map (fun r => r.day_part),
          occCount c ([splitNames soupLunchRaw].map (fun r => r.day_part))
              = maxCount
                  ([splitNames soupLunchRaw].map (fun r => r.day_part)) →
            d.day_part ≤ c) ∧
      (∃ h0, ([splitNames soupLunchRaw]).head? = some h0 ∧
        d.group = h0.group) :=
  C4_dedup_aggregation_amended.1 [splitNames soupLunchRaw]
    (dedupKey (splitNames soupLunchRaw)) [splitNames soupLunchRaw]
    (by decide)

/-- C5: two rows that agree on the dedup identity key except that their
`category` texts differ only up to accent folding (equal `category_norm`)
collapse into exactly one deduplicated row, whose `gross_revenue` is the
maximum of the two and whose `category` is one of the two original,
un-folded category texts. -/
theorem C5_accent_dedup :
    ∀ r1 r2 : Row1,
      r1.check_id = r2.check_id → r1.item_name = r2.item_name →
      r1.date = r2.date → r1.sale_time_exact = r2.sale_time_exact →
      r1.is_beverage_on_check = r2.is_beverage_on_check →
      r1.cost_center = r2.cost_center →
      nfkdAscii r1.category = nfkdAscii r2.category →
      ∃ d, dedupe [r1, r2] = [d] ∧
        d.gross_revenue = max r1.gross_revenue r2.gross_revenue ∧
        (d.category = r1.category ∨ d.category = r2.category) := by
  intro r1 r2 h1 h2 h3 h4 h5 h6 h7
  have hk : dedupKey r1 = dedupKey r2 := by
    simp only [dedupKey, h1, h2, h3, h4, h5, h6, h7]
  have hdk : distinctKeys dedupKey [r1, r2] = [dedupKey r2] := by
    simp [distinctKeys, hk]
  have hgr : groupRows dedupKeyLE dedupKey [r1, r2]
      = [(dedupKey r2, [r1, r2])] := by
    rw [groupRows, hdk]
    simp [sortBy, insertSorted, List.filter, hk]
  have hagg : dedupeAgg (dedupKey r2, [r1, r2])
      = some { check_id := r2.check_id, item_name := r2.item_name,
               date := r2.date, sale_time_exact := r2.sale_time_exact,
               is_beverage_on_check := r2.is_beverage_on_check,
               cost_center := r2.cost_center,
               gross_revenue := max r1.gross_revenue r2.gross_revenue,
               category := if r1.category = r2.category then r1.category
                 else if strLE r1.category r2.category then r1.category
                 else r2.category,
               day_part := if r1.day_part = r2.day_part then r1.day_part
                 else if strLE r1.day_part r2.day_part then r1.day_part
                 else r2.day_part,
               group := r1.group } := by
    simp only [dedupeAgg]
    rw [show ([r1, r2].map (fun r => r.gross_revenue))
        = [r1.gross_revenue, r2.gross_revenue] from rfl,
      show ([r1, r2].map (fun r => r.category))
        = [r1.category, r2.category] from rfl,
      show ([r1, r2].map (fun r => r.day_part))
        = [r1.day_part, r2.day_part] from rfl,
      aggMax_pair, modeOrFirst_pair, modeOrFirst_pair]
    rfl
  refine ⟨{ check_id := r2.check_id, item_name := r2.item_name,
            date := r2.date, sale_time_exact := r2.sale_time_exact,
            is_beverage_on_check := r2.is_beverage_on_check,
            cost_center := r2.cost_center,
            gross_revenue := max r1.gross_revenue r2.gross_revenue,
            category := if r1.category = r2.category then r1.category
              else if strLE r1.category r2.category then r1.category
              else r2.category,
            day_part := if r1.day_part = r2.day_part then r1.day_part
              else if strLE r1.day_part r2.day_part then r1.day_part
              else r2.day_part,
            group := r1.group }, ?_, rfl, ?_⟩
  · rw [dedupe, hgr, List.filterMap_cons_some hagg]
    rfl
  · by_cases hc : r1.category = r2.category
    · left
      simp [hc]
    · by_cases hle : strLE r1.category r2.category
      · left
        simp [hc, hle]
      · right
        simp [hc, hle]

/-- Witness for C5 on the accented pair `"Entrée"` / `"Entree"` with
revenues 12 and 9. -/
theorem C5_witness :
    ∃ d, dedupe [entreeAccentRow, entreePlainRow] = [d] ∧
      d.gross_revenue
        = max entreeAccentRow.gross_revenue entreePlainRow.gross_revenue ∧
      (d.category = entreeAccentRow.category ∨
        d.category = entreePlainRow.category) :=
  C5_accent_dedup entreeAccentRow entreePlainRow rfl rfl rfl rfl rfl rfl
    (by decide)

/-- C6 (amended): every `dim_items` price is the mode of the strictly
positive revenues of its item group — specifically the least value among
those attaining the maximal multiplicity, because pandas `mode()` returns
the tied values sorted ascending; in particular, when all values are
distinct the price is the least value, not the claimed first-encountered
value (the `x.iloc[0]` fallback is dead code on a nonempty series). -/
theorem C6_price_mode_amended :
    ∀ (rows : List CleanRow) (it : Item), it ∈ buildItems rows →
      ∃ g, (itemKeyI it, g) ∈ groupRows itemKeyLE itemKey
          (rows.filter (fun r => decide (0 < r.gross_revenue))) ∧
        (∀ r ∈ g, 0 < r.gross_revenue) ∧
        it.price ∈ g.map (fun r => r.gross_revenue) ∧
        occCount it.price (g.map (fun r => r.gross_revenue))
          = maxCount (g.map (fun r => r.gross_revenue)) ∧
        ∀ x ∈ g.map (fun r => r.gross_revenue),
          occCount x (g.map (fun r => r.gross_revenue))
            = maxCount (g.map (fun r => r.gross_revenue)) →
          it.price ≤ x := by
  intro rows it hit
  obtain ⟨-, g, hg, hmode⟩ := mem_buildItems hit
  have hne := groupRows_ne_nil hg
  obtain ⟨hm, hc, hmin⟩ := modeOrFirst_linear_spec qLE_iff
    (map_ne_nil _ hne) hmode
  refine ⟨g, hg, ?_, hm, hc, hmin⟩
  intro r hr
  have hgf := (mem_groupRows hg).1
  rw [hgf] at hr
  exact of_decide_eq_true (List.mem_filter.mp (List.mem_filter.mp hr).1).2

/-- Counterexample to C6 as stated: an item whose two deduplicated rows
have distinct revenues 7 (first in row order) and 5 gets price 5 — the
least value — not the claimed first-encountered value 7. -/
theorem C6_counterexample :
    (runClean [pieSevenRaw, pieFiveRaw]).map (fun r => r.gross_revenue)
      = [7, 5] ∧
    (buildItems (runClean [pieSevenRaw, pieFiveRaw])).map
        (fun it => it.price) = [5] := by decide

/-- Witness for C6 (amended) at the concrete single-item run. -/
theorem C6_witness :
    ∃ g, (itemKeyI teaItem, g) ∈ groupRows itemKeyLE itemKey
        ((runClean [teaRaw]).filter
          (fun r => decide (0 < r.gross_revenue))) ∧
      (∀ r ∈ g, 0 < r.gross_revenue) ∧
      teaItem.price ∈ g.map (fun r => r.gross_revenue) ∧
      occCount teaItem.price (g.map (fun r => r.gross_revenue))
        = maxCount (g.map (fun r => r.gross_revenue)) ∧
      ∀ x ∈ g.map (fun r => r.gross_revenue),
        occCount x (g.map (fun r => r.gross_revenue))
          = maxCount (g.map (fun r => r.gross_revenue)) →
        teaItem.price ≤ x :=
  C6_price_mode_amended (runClean [teaRaw]) teaItem (by decide)

end Pipeline
